import Mathlib

/-!
# Lizard game (tabular Q-learning on a 3×3 grid): a shallow embedding of `game.js`

The class `Lizard` of `game.js` is embedded as a record of its fields and every
method as a function on that record.  Numbers are exact rationals, except the
exploration rate, whose decrement is rounded as the doubles of the code are.  A
method returns `none` when its execution leaves the modelled fragment of
JavaScript: a `TypeError` is thrown, or `undefined`, `NaN` or an infinity would
enter an arithmetic expression.

The rendering method `display` writes only to the page and changes no field, but
it throws a `TypeError` when a slot of `QTable` is no array.  In a well-formed
state it returns normally, so that `step` and `resetPosition`, which call it
last, are embedded without it; the functions named `...Outcome` and
`showResultTick` embed the calls with it and give the state that a call leaves
behind also when it throws.
-/

namespace LizardGame

/-! ## Constants (lines 22–34 of `game.js`) -/

/-- Source: `const LEARNING_RATE = 0.7`. -/
def LEARNING_RATE : ℚ := 7 / 10

/-- Source: `const MAX_STEPS = 100`. -/
def MAX_STEPS : Nat := 100

/-- Source: `const EPISODES = 100`. -/
def EPISODES : Nat := 100

/-- Source: the table `REWARDS`, indexed `REWARDS[y][x]`. -/
def REWARDS : List (List ℚ) :=
  [[1, -1, -1],
   [-1, -10, -1],
   [-1, -1, 10]]

/-- Source: `TERMINATE_CELLS`, each cell written `[x, y]`. -/
def TERMINATE_CELLS : List (Int × Int) := [(1, 1), (2, 2)]

/-! ## JavaScript values and array access -/

/-- Source: the expression `xs[i]` on an array; `none` stands for `undefined`
(index negative or past the end). -/
def getIdx {α : Type} (xs : List α) (i : Int) : Option α :=
  if 0 ≤ i then xs[i.toNat]? else none

/-- Source: the assignment `xs[i] = v` at an index that `getIdx` has read. -/
def setIdx {α : Type} (xs : List α) (i : Int) (v : α) : List α :=
  xs.set i.toNat v

/-- What one slot `QTable[i]` can hold: an array of numbers (as the constructor
writes it), or a number or `NaN` once `QTable[posIdx] -= 100` has run on it. -/
inductive QRow where
  | arr (vs : List ℚ)
  | num (v : ℚ)
  | nan
  deriving DecidableEq, Repr

/-- What a move method returns: `false` from the early `return false`, and
`undefined` when the body runs to its end. -/
inductive MoveResult where
  | retFalse
  | retUndefined
  deriving DecidableEq, Repr

/-- The fields of a `Lizard` object.  `steps` is the property that
`resetPosition` creates; it is absent (`none`) after the constructor. -/
structure Lizard where
  x : Int
  y : Int
  cumulativeReward : ℚ
  stepCount : Nat
  discountRate : ℚ
  explorationRate : ℚ
  QTable : List QRow
  steps : Option Nat
  deriving DecidableEq, Repr

/-- Source: `constructor()`. -/
def Lizard.new : Lizard where
  x := 0
  y := 2
  cumulativeReward := 0
  stepCount := 0
  discountRate := 99 / 100
  explorationRate := 1
  QTable :=
    [QRow.arr [0, 0, 0, 0],
     QRow.arr [0, 0, 0, 0],
     QRow.arr [0, 0, 0, 0],
     QRow.arr [0, 0, 0, 0],
     QRow.arr [0, 0, 0, 0],
     QRow.arr [0, 0, 0, 0],
     QRow.arr [0, 0, 0, 0],
     QRow.arr [0, 0, 0, 0],
     QRow.arr [0, 0, 0, 0]]
  steps := none

/-- Source: `REWARDS[y][x]`. -/
def rewardAt (y x : Int) : Option ℚ :=
  (getIdx REWARDS y).bind (fun row => getIdx row x)

/-- Source: `Math.max(...vs)` on an array of numbers; the empty call gives
`-Infinity`, which is outside the rationals. -/
def mathMax : List ℚ → Option ℚ
  | [] => none
  | v :: vs => some (vs.foldl max v)

/-- Source: `Math.max(...row)` on a slot of `QTable`; spreading a number throws. -/
def spreadMax : QRow → Option ℚ
  | QRow.arr vs => mathMax vs
  | _ => none

/-- Source: `vs.indexOf(v)`, counting from `i`: the first position holding a
value strictly equal to `v`, or `-1`. -/
def indexOfFrom : List ℚ → ℚ → Int → Int
  | [], _, _ => -1
  | w :: ws, v, i => if w = v then i else indexOfFrom ws v (i + 1)

/-- Source: `vs.indexOf(v)`. -/
def indexOf (vs : List ℚ) (v : ℚ) : Int := indexOfFrom vs v 0

/-! ## Methods of `Lizard` -/

/-- Source: `updateQTable(prevPosIdx, actionIdx)` (lines 101–113). -/
def updateQTable (s : Lizard) (prevPosIdx actionIdx : Int) : Option Lizard :=
  let newPosIdx := s.y * 3 + s.x
  match getIdx s.QTable prevPosIdx with
  | some (QRow.arr vs) =>
    (getIdx vs actionIdx).bind fun prevQValue =>
    (getIdx s.QTable newPosIdx).bind fun newRow =>
    (spreadMax newRow).bind fun maxQValueForNewState =>
      let newQValue :=
        (1 - LEARNING_RATE) * prevQValue +
          LEARNING_RATE * (s.cumulativeReward + s.discountRate * maxQValueForNewState)
      some { s with QTable := setIdx s.QTable prevPosIdx (QRow.arr (setIdx vs actionIdx newQValue)) }
  | _ => none

/-- Source: `left()` (lines 62–67). -/
def left (s : Lizard) : Option (MoveResult × Lizard) :=
  if s.x = 0 then some (MoveResult.retFalse, s)
  else
    let s1 := { s with x := s.x - 1 }
    (rewardAt s1.y s1.x).bind fun r =>
      let s2 := { s1 with cumulativeReward := s1.cumulativeReward + r }
      (updateQTable s2 (s2.y * 3 + s2.x + 1) 0).map fun s3 => (MoveResult.retUndefined, s3)

/-- Source: `right()` (lines 68–73). -/
def right (s : Lizard) : Option (MoveResult × Lizard) :=
  if s.x = 2 then some (MoveResult.retFalse, s)
  else
    let s1 := { s with x := s.x + 1 }
    (rewardAt s1.y s1.x).bind fun r =>
      let s2 := { s1 with cumulativeReward := s1.cumulativeReward + r }
      (updateQTable s2 (s2.y * 3 + s2.x - 1) 1).map fun s3 => (MoveResult.retUndefined, s3)

/-- Source: `up()` (lines 74–79). -/
def up (s : Lizard) : Option (MoveResult × Lizard) :=
  if s.y = 0 then some (MoveResult.retFalse, s)
  else
    let s1 := { s with y := s.y - 1 }
    (rewardAt s1.y s1.x).bind fun r =>
      let s2 := { s1 with cumulativeReward := s1.cumulativeReward + r }
      (updateQTable s2 ((s2.y + 1) * 3 + s2.x) 2).map fun s3 => (MoveResult.retUndefined, s3)

/-- Source: `down()` (lines 80–85). -/
def down (s : Lizard) : Option (MoveResult × Lizard) :=
  if s.y = 2 then some (MoveResult.retFalse, s)
  else
    let s1 := { s with y := s.y + 1 }
    (rewardAt s1.y s1.x).bind fun r =>
      let s2 := { s1 with cumulativeReward := s1.cumulativeReward + r }
      (updateQTable s2 ((s2.y - 1) * 3 + s2.x) 3).map fun s3 => (MoveResult.retUndefined, s3)

/-- Source: `actionQValues.indexOf(Math.max(...actionQValues))`, the expression
of lines 128 (`step`) and 178 (`showResult`). -/
def greedyIdx (actionQValues : List ℚ) : Option Int :=
  (mathMax actionQValues).map fun m => indexOf actionQValues m

/-- Source: lines 126–128 of `step` and 176–178 of `showResult`: the greedy
action index at `posIdx = y * 3 + x`. -/
def bestAction (s : Lizard) : Option Int :=
  let posIdx := s.y * 3 + s.x
  match getIdx s.QTable posIdx with
  | some (QRow.arr actionQValues) => greedyIdx actionQValues
  | _ => none

/-- Source: lines 117–129 of `step`, the epsilon-greedy choice of `actionIdx`;
`r1` and `r2` are the results of the two calls of `Math.random()`. -/
def chooseAction (s : Lizard) (r1 r2 : ℚ) : Option Int :=
  let shouldExplore := decide (r1 ≤ s.explorationRate)
  if shouldExplore then some ⌊r2 * 4⌋ else bestAction s

/-- Source: lines 131–134 of `step`, the dispatch on `actionIdx`. -/
def dispatch (s : Lizard) (actionIdx : Int) : Option (MoveResult × Lizard) :=
  if actionIdx = 0 then left s
  else if actionIdx = 1 then right s
  else if actionIdx = 2 then up s
  else down s

/-- Source: the literal `0.005` of line 138, a double: the double nearest to
`5/1000`. -/
def DECREMENT : ℚ := 5764607523034235 / 2 ^ 60

/-- Source: the literal `0.2` of line 137, a double: the double nearest to
`2/10`, slightly above it. -/
def FLOOR_RATE : ℚ := 3602879701896397 / 2 ^ 54

/-- The integer nearest to `q`, a tie going to the even one. -/
def roundHalfEven (q : ℚ) : ℤ :=
  let f := ⌊q⌋
  if q - f < 1 / 2 then f
  else if 1 / 2 < q - f then f + 1
  else if f % 2 = 0 then f else f + 1

/-- The double nearest to `q`, a tie going to the even significand: the result
of an arithmetic operation on doubles whose exact value is `q`.  With
`2 ^ e ≤ |q| < 2 ^ (e + 1)` the doubles near `q` are the multiples of
`2 ^ (e - 52)`.  The exponent is not bounded here, which is exact for
`2 ^ (-1022) ≤ |q| < 2 ^ 1024`. -/
def roundDouble (q : ℚ) : ℚ :=
  let e := Int.log 2 |q|
  (roundHalfEven (q / 2 ^ (e - 52)) : ℚ) * 2 ^ (e - 52)

/-- Source: lines 136–139 of `step`: `stepCount++`, then
`if (this.explorationRate > 0.2) this.explorationRate -= 0.005`, a comparison
and a subtraction of doubles. -/
def countAndDecay (s : Lizard) : Lizard :=
  let s1 := { s with stepCount := s.stepCount + 1 }
  if s1.explorationRate > FLOOR_RATE then
    { s1 with explorationRate := roundDouble (s1.explorationRate - DECREMENT) }
  else s1

/-- Source: lines 137–139 of `step`, as a function of the value of
`explorationRate`. -/
def decay (e : ℚ) : ℚ :=
  if e > FLOOR_RATE then roundDouble (e - DECREMENT) else e

/-- The function `roundHalfEven` on `m / 2 ^ k` for natural numbers. -/
def rheNat (m k : Nat) : Nat :=
  let f := m / 2 ^ k
  let r := m % 2 ^ k
  if 2 * r < 2 ^ k then f
  else if 2 ^ k < 2 * r then f + 1
  else if f % 2 = 0 then f else f + 1

/-- The function `roundDouble` on `m / 2 ^ 60` for `2 ^ 57 ≤ m < 2 ^ 60`, that
is on values from `1/8` up to `1`, in units of `2 ^ (-60)`. -/
def roundBits (m : Nat) : Nat :=
  let k := if m < 2 ^ 58 then 5 else if m < 2 ^ 59 then 6 else 7
  rheNat m k * 2 ^ k

/-- The function `decay` on `n / 2 ^ 60` for `n ≤ 2 ^ 60`, in units of
`2 ^ (-60)`: `FLOOR_RATE` is `230584300921369408` and `DECREMENT` is
`5764607523034235` of them. -/
def decayBits (n : Nat) : Nat :=
  if n > 230584300921369408 then roundBits (n - 5764607523034235) else n

/-- After `n` decays from `1` the rate is within `10 ^ (-15)` of
`1 - n * 5/1000`, in units of `2 ^ (-60)`. -/
def closeBits (n : Nat) : Bool :=
  decide (200 * decayBits^[n] (2 ^ 60) * 10 ^ 15 ≤ (200 - n) * 2 ^ 60 * 10 ^ 15 + 200 * 2 ^ 60) &&
  decide ((200 - n) * 2 ^ 60 * 10 ^ 15 ≤ 200 * decayBits^[n] (2 ^ 60) * 10 ^ 15 + 200 * 2 ^ 60)

/-- Source: `step()` (lines 115–139), with the two random draws as inputs: the
statements before the closing call of `display`, which changes no field and
returns normally when every slot of `QTable` is an array.  `stepOutcome` embeds
the method with that call. -/
def step (s : Lizard) (r1 r2 : ℚ) : Option Lizard :=
  (chooseAction s r1 r2).bind fun actionIdx =>
  (dispatch s actionIdx).map fun res => countAndDecay res.2

/-- Source: `resetPosition()` (lines 143–147), the assignments before the
closing call of `display`.  `resetPositionOutcome` embeds the method with that
call. -/
def resetPosition (s : Lizard) : Lizard :=
  { s with x := 0, y := 2, steps := some 0, cumulativeReward := 0 }

/-- Source: `TERMINATE_CELLS.find((pos) => pos[0] === this.x && pos[1] === this.y)`
read as a condition (a found cell is truthy, `undefined` is falsy). -/
def atTerminal (s : Lizard) : Bool :=
  (TERMINATE_CELLS.find? fun pos => decide (pos.1 = s.x) && decide (pos.2 = s.y)).isSome

/-- Source: the array of deltas in `showResult` (lines 180–185), each `[dx, dy]`. -/
def ACTION_DELTAS : List (Int × Int) := [(-1, 0), (1, 0), (0, -1), (0, 1)]

/-- Source: `row - 100` on a slot of `QTable`.  An array is first converted to a
number through its string form: `[]` gives `0`, `[v]` gives `v`, and an array
of two or more numbers (its string has a comma) gives `NaN`. -/
def minusHundred : QRow → QRow
  | QRow.arr [] => QRow.num (-100)
  | QRow.arr [v] => QRow.num (v - 100)
  | QRow.arr _ => QRow.nan
  | QRow.num v => QRow.num (v - 100)
  | QRow.nan => QRow.nan

/-- Source: the condition of lines 189–194 of `showResult`: the move with index
`actionIdx` would leave the grid. -/
def leavesGrid (s : Lizard) (actionIdx : Int) : Bool :=
  match getIdx ACTION_DELTAS actionIdx with
  | some action =>
    decide (s.x + action.1 < 0 ∨ s.x + action.1 > 2 ∨ s.y + action.2 < 0 ∨ s.y + action.2 > 2)
  | none => false

/-- Source: lines 172–199 of the interval callback of `showResult`, the
statements before the call of `display`.  The Boolean is `true` when the
callback clears the interval and returns.  The result is `none` when these lines
throw a `TypeError` (spreading a slot that is no array, or indexing the delta of
an index outside `0..3`), which happens before any field is written. -/
def showResultBody (s : Lizard) : Option (Bool × Lizard) :=
  if atTerminal s then some (true, s)
  else
    let posIdx := s.y * 3 + s.x
    (getIdx s.QTable posIdx).bind fun actionQValues =>
    (bestAction s).bind fun actionIdx =>
    (getIdx ACTION_DELTAS actionIdx).bind fun action =>
      if leavesGrid s actionIdx then
        some (false, { s with QTable := setIdx s.QTable posIdx (minusHundred actionQValues) })
      else
        some (false, { s with x := s.x + action.1, y := s.y + action.2 })

/-- How a call ends, with the state it leaves behind: it returns, it returns
after clearing its interval, or it throws a `TypeError`. -/
inductive Outcome where
  | returned (s : Lizard)
  | cleared (s : Lizard)
  | threw (s : Lizard)
  deriving DecidableEq, Repr

/-- The state a call leaves behind. -/
def Outcome.state : Outcome → Lizard
  | Outcome.returned s => s
  | Outcome.cleared s => s
  | Outcome.threw s => s

/-- The slot holds an array. -/
def QRow.isArr : QRow → Bool
  | QRow.arr _ => true
  | _ => false

/-- Source: `display()` (lines 87–99), as the answer to: does it return
normally?  It changes no field.  Its loop calls `row.entries()` on every slot of
`QTable`, which throws a `TypeError` on a slot that is a number; the page is
taken to hold a cell for every entry of an array. -/
def display (s : Lizard) : Bool :=
  s.QTable.all QRow.isArr

/-- Source: one run of the interval callback of `showResult` (lines 172–202):
the statements of `showResultBody`, then `display()`. -/
def showResultTick (s : Lizard) : Outcome :=
  match showResultBody s with
  | none => Outcome.threw s
  | some (true, s1) => Outcome.cleared s1
  | some (false, s1) => if display s1 then Outcome.returned s1 else Outcome.threw s1

/-- The slot `t[i]` exists and holds an array. -/
def slotIsArr (t : List QRow) (i : Int) : Bool :=
  match getIdx t i with
  | some r => r.isArr
  | none => false

/-- Source: `updateQTable(prevPosIdx, actionIdx)` (lines 101–113), as the answer
to: does it throw a `TypeError`?  It does exactly when `QTable[prevPosIdx]` or
`QTable[newPosIdx]` is no array: indexing or spreading `undefined`, spreading a
number, or, in the strict code of a class, assigning to an index of a number.
Nothing is written before the throw. -/
def updateQTableThrows (s : Lizard) (prevPosIdx : Int) : Bool :=
  !(slotIsArr s.QTable prevPosIdx && slotIsArr s.QTable (s.y * 3 + s.x))

/-- Source: the last two statements of a move method (lines 65–66, 71–72, 77–78,
83–84), run in the state `s1` that holds the new position:
`cumulativeReward += REWARDS[y][x]`, which throws when `REWARDS[y]` is
`undefined`, then `updateQTable(prevPosIdx, actionIdx)`. -/
def rewardAndUpdate (s1 : Lizard) (prevPosIdx actionIdx : Int) : Option Outcome :=
  match getIdx REWARDS s1.y with
  | none => some (Outcome.threw s1)
  | some row =>
    match getIdx row s1.x with
    | none => none
    | some r =>
      let s2 := { s1 with cumulativeReward := s1.cumulativeReward + r }
      if updateQTableThrows s2 prevPosIdx then some (Outcome.threw s2)
      else (updateQTable s2 prevPosIdx actionIdx).map Outcome.returned

/-- Source: `left()` (lines 62–67), with the state left behind by a throw. -/
def leftOutcome (s : Lizard) : Option Outcome :=
  if s.x = 0 then some (Outcome.returned s)
  else
    let s1 := { s with x := s.x - 1 }
    rewardAndUpdate s1 (s1.y * 3 + s1.x + 1) 0

/-- Source: `right()` (lines 68–73), with the state left behind by a throw. -/
def rightOutcome (s : Lizard) : Option Outcome :=
  if s.x = 2 then some (Outcome.returned s)
  else
    let s1 := { s with x := s.x + 1 }
    rewardAndUpdate s1 (s1.y * 3 + s1.x - 1) 1

/-- Source: `up()` (lines 74–79), with the state left behind by a throw. -/
def upOutcome (s : Lizard) : Option Outcome :=
  if s.y = 0 then some (Outcome.returned s)
  else
    let s1 := { s with y := s.y - 1 }
    rewardAndUpdate s1 ((s1.y + 1) * 3 + s1.x) 2

/-- Source: `down()` (lines 80–85), with the state left behind by a throw. -/
def downOutcome (s : Lizard) : Option Outcome :=
  if s.y = 2 then some (Outcome.returned s)
  else
    let s1 := { s with y := s.y + 1 }
    rewardAndUpdate s1 ((s1.y - 1) * 3 + s1.x) 3

/-- Source: lines 131–134 of `step`, the dispatch on `actionIdx`, with the state
left behind by a throw. -/
def dispatchOutcome (s : Lizard) (actionIdx : Int) : Option Outcome :=
  if actionIdx = 0 then leftOutcome s
  else if actionIdx = 1 then rightOutcome s
  else if actionIdx = 2 then upOutcome s
  else downOutcome s

/-- Source: lines 136–140 of `step`, run after the move has returned:
`stepCount++`, the decay, then `display()`.  A move that threw ends the step. -/
def finishStep : Outcome → Outcome
  | Outcome.returned s1 =>
    if display (countAndDecay s1) then Outcome.returned (countAndDecay s1)
    else Outcome.threw (countAndDecay s1)
  | o => o

/-- Source: `step()` (lines 115–141) with the call of `display`, and with the
state left behind by a throw.  In the greedy branch a slot that is no array
throws at `Math.max(...actionQValues)`, before any field is written. -/
def stepOutcome (s : Lizard) (r1 r2 : ℚ) : Option Outcome :=
  if r1 ≤ s.explorationRate then (dispatchOutcome s ⌊r2 * 4⌋).map finishStep
  else
    match getIdx s.QTable (s.y * 3 + s.x) with
    | some (QRow.arr actionQValues) =>
      (greedyIdx actionQValues).bind fun actionIdx =>
        (dispatchOutcome s actionIdx).map finishStep
    | _ => some (Outcome.threw s)

/-- Source: `resetPosition()` (lines 143–150) with the call of `display`. -/
def resetPositionOutcome (s : Lizard) : Outcome :=
  if display (resetPosition s) then Outcome.returned (resetPosition s)
  else Outcome.threw (resetPosition s)

/-- One call made on a `Lizard` during a training run: `step()` with its two
random draws, or `resetPosition()`. -/
inductive Call where
  | step (r1 r2 : ℚ)
  | resetPosition
  deriving DecidableEq, Repr

/-- Runs one call. -/
def runCall (s : Lizard) : Call → Option Lizard
  | Call.step r1 r2 => step s r1 r2
  | Call.resetPosition => some (resetPosition s)

/-- Runs a sequence of calls, first to last. -/
def runCalls (s : Lizard) : List Call → Option Lizard
  | [] => some s
  | c :: cs => (runCall s c).bind fun s1 => runCalls s1 cs

/-- The number of calls of `step` in a sequence of calls. -/
def stepCalls : List Call → Nat
  | [] => 0
  | Call.step _ _ :: cs => stepCalls cs + 1
  | Call.resetPosition :: cs => stepCalls cs

/-! ## Well-formed states -/

/-- Source: `QTable[i][j]`. -/
def entry (t : List QRow) (i j : Int) : Option ℚ :=
  match getIdx t i with
  | some (QRow.arr vs) => getIdx vs j
  | _ => none

/-- Source: `Math.max(...QTable[i])`. -/
def rowMax (t : List QRow) (i : Int) : Option ℚ :=
  (getIdx t i).bind spreadMax

/-- A slot holding an array of exactly four numbers. -/
def QRow.IsRow4 : QRow → Prop
  | QRow.arr vs => vs.length = 4
  | _ => False

/-- A table of exactly nine rows of four numbers. -/
def IsTable (t : List QRow) : Prop :=
  t.length = 9 ∧ ∀ r ∈ t, r.IsRow4

/-- The states the claims range over: a position on the grid, the discount rate
the constructor sets, and a 9×4 table. -/
structure Lizard.WF (s : Lizard) : Prop where
  x_lo : 0 ≤ s.x
  x_hi : s.x ≤ 2
  y_lo : 0 ≤ s.y
  y_hi : s.y ≤ 2
  discount : s.discountRate = 99 / 100
  table : IsTable s.QTable

/-- The state an accepted move with index `a` and delta `(dx, dy)` leaves, given
the reward `r` of the target cell, the row `vs` of the old position, its entry
`q` and the maximum `m` of the row of the target cell. -/
def movedState (s : Lizard) (a dx dy : Int) (r : ℚ) (vs : List ℚ) (q m : ℚ) : Lizard :=
  { s with
    x := s.x + dx
    y := s.y + dy
    cumulativeReward := s.cumulativeReward + r
    QTable := setIdx s.QTable (s.y * 3 + s.x) (QRow.arr (setIdx vs a
      ((1 - LEARNING_RATE) * q +
        LEARNING_RATE * (s.cumulativeReward + r + s.discountRate * m)))) }

/-- The state of a fresh `Lizard` after one `step()` that explored `UP`
(draws `0` and `1/2`): at `(0, 1)` with `cumulativeReward = -1`. -/
def blockedProbe : Lizard :=
  { Lizard.new with
    y := 1
    cumulativeReward := -1
    stepCount := 1
    explorationRate := 8962163258467287 / 2 ^ 53
    QTable := setIdx Lizard.new.QTable 6 (QRow.arr [0, 0, -7 / 10, 0]) }

/-! ## The episode runner, the training run and the playback -/

/-- Source: the condition of lines 155–158 of `startEpisode`:
`stepCount < MAX_STEPS` and no terminal cell found at the position. -/
def episodeGuard (s : Lizard) : Bool :=
  decide (s.stepCount < MAX_STEPS) && !atTerminal s

/-- Source: one run of the interval callback of `startEpisode` (lines 154–165),
with the random draws of its step as inputs.  The Boolean is `true` when the
callback clears the interval, calls `resetPosition` and resolves the promise. -/
def episodeTick (s : Lizard) (r1 r2 : ℚ) : Option (Bool × Lizard) :=
  if episodeGuard s then (step s r1 r2).map fun s1 => (false, s1)
  else some (true, resetPosition s)

/-- Source: `startEpisode()` (lines 152–167): the callback runs until it
resolves the promise.  `draws k` holds the random results of the step with
number `k` of the run, `fuel` bounds the number of runs of the callback, and the
result is the state when the promise resolves with the number of the next
step. -/
def startEpisode : Nat → Lizard → (Nat → ℚ × ℚ) → Nat → Option (Lizard × Nat)
  | 0, _, _, _ => none
  | fuel + 1, s, draws, k =>
    match episodeTick s (draws k).1 (draws k).2 with
    | some (true, s1) => some (s1, k)
    | some (false, s1) => startEpisode fuel s1 draws (k + 1)
    | none => none

/-- Source: the loop of `startTraining` (lines 210–212), for `n` episodes, each
awaited before the next starts. -/
def runEpisodes : Nat → Nat → Lizard → (Nat → ℚ × ℚ) → Nat → Option (Lizard × Nat)
  | 0, _, s, _, k => some (s, k)
  | n + 1, fuel, s, draws, k =>
    (startEpisode fuel s draws k).bind fun res => runEpisodes n fuel res.1 draws res.2

/-- Source: `startTraining()` (lines 207–213): a fresh `Lizard` and `EPISODES`
episodes.  The result is the final state with the number of steps executed. -/
def startTraining (fuel : Nat) (draws : Nat → ℚ × ℚ) : Option (Lizard × Nat) :=
  runEpisodes EPISODES fuel Lizard.new draws 0

/-- The state after `n` successive calls of `step`, the first with the draws
`draws k`. -/
def stepsFrom : Nat → Lizard → (Nat → ℚ × ℚ) → Nat → Option Lizard
  | 0, s, _, _ => some s
  | n + 1, s, draws, k =>
    (step s (draws k).1 (draws k).2).bind fun s1 => stepsFrom n s1 draws (k + 1)

/-- The state after `n` successive runs of the callback of `startEpisode`, a new
episode starting when one has resolved. -/
def runTicks : Nat → Lizard → (Nat → ℚ × ℚ) → Nat → Option Lizard
  | 0, s, _, _ => some s
  | n + 1, s, draws, k =>
    (episodeTick s (draws k).1 (draws k).2).bind fun res => runTicks n res.2 draws (k + 1)

/-- The state after `n` successive runs of the callback of `showResult`, with
the answer to: has the interval been cleared?  The callback no longer runs once
it has cleared the interval; after a run that threw, the interval keeps
firing. -/
def showResultTicks : Nat → Lizard → Bool × Lizard
  | 0, s => (false, s)
  | n + 1, s =>
    match showResultTick s with
    | Outcome.cleared s1 => (true, s1)
    | Outcome.returned s1 => showResultTicks n s1
    | Outcome.threw s1 => showResultTicks n s1

/-- One operation on a `Lizard`: a move method, `step()` with its draws,
`resetPosition()`, or one run of the callback of `showResult`. -/
inductive Op where
  | left
  | right
  | up
  | down
  | step (r1 r2 : ℚ)
  | resetPosition
  | showResultTick
  deriving DecidableEq, Repr

/-- The outcome of one operation; `none` when it leaves the modelled fragment. -/
def opOutcome (s : Lizard) : Op → Option Outcome
  | Op.left => leftOutcome s
  | Op.right => rightOutcome s
  | Op.up => upOutcome s
  | Op.down => downOutcome s
  | Op.step r1 r2 => stepOutcome s r1 r2
  | Op.resetPosition => some (resetPositionOutcome s)
  | Op.showResultTick => some (showResultTick s)

/-- Runs one operation that returns; `none` when it throws. -/
def runOp (s : Lizard) (o : Op) : Option Lizard :=
  match opOutcome s o with
  | some (Outcome.returned s1) => some s1
  | some (Outcome.cleared s1) => some s1
  | _ => none

/-- Runs a sequence of operations, first to last, each of which returns. -/
def runOps (s : Lizard) : List Op → Option Lizard
  | [] => some s
  | o :: os => (runOp s o).bind fun s1 => runOps s1 os

/-- The state after a sequence of operations, first to last, each run in the
state the one before has left behind, whether it returned or threw. -/
def afterOps (s : Lizard) : List Op → Option Lizard
  | [] => some s
  | o :: os => (opOutcome s o).bind fun out => afterOps out.state os

/-- A table that a playback may have damaged: nine slots, each of them a row of
four numbers or no array at all. -/
def SlotsOK (t : List QRow) : Prop :=
  t.length = 9 ∧ ∀ r ∈ t, r.isArr = true → r.IsRow4

/-- The position is on the grid. -/
def InGrid (s : Lizard) : Prop :=
  0 ≤ s.x ∧ s.x ≤ 2 ∧ 0 ≤ s.y ∧ s.y ≤ 2

/-- A table whose greedy action is `UP` at state `6 = (0, 2)` and `DOWN` at
state `3 = (0, 1)`. -/
def loopTable : List QRow :=
  [QRow.arr [0, 0, 0, 0],
   QRow.arr [0, 0, 0, 0],
   QRow.arr [0, 0, 0, 0],
   QRow.arr [0, 0, 0, 1],
   QRow.arr [0, 0, 0, 0],
   QRow.arr [0, 0, 0, 0],
   QRow.arr [0, 0, 1, 0],
   QRow.arr [0, 0, 0, 0],
   QRow.arr [0, 0, 0, 0]]

/-- The rows of the terminal cells, row `4` for `(1, 1)` and row `8` for
`(2, 2)`, are `[0, 0, 0, 0]`. -/
def TerminalRowsZero (s : Lizard) : Prop :=
  getIdx s.QTable 4 = some (QRow.arr [0, 0, 0, 0]) ∧
  getIdx s.QTable 8 = some (QRow.arr [0, 0, 0, 0])

/-! ## Lookups in well-formed states -/

theorem getIdx_of_lt {α : Type} (xs : List α) (i : Int) (h0 : 0 ≤ i) (h1 : i.toNat < xs.length) :
    getIdx xs i = some (xs.get ⟨i.toNat, h1⟩) := by
  simp [getIdx, h0, List.getElem?_eq_getElem h1]

theorem getIdx_table {t : List QRow} (ht : IsTable t) {i : Int} (h0 : 0 ≤ i) (h8 : i ≤ 8) :
    ∃ vs, getIdx t i = some (QRow.arr vs) ∧ vs.length = 4 := by
  obtain ⟨hl, hr⟩ := ht
  have hlt : i.toNat < t.length := by omega
  have hmem : t.get ⟨i.toNat, hlt⟩ ∈ t := List.get_mem _ _ _
  have h4 := hr _ hmem
  rw [getIdx_of_lt t i h0 hlt]
  cases hrow : t.get ⟨i.toNat, hlt⟩ with
  | arr vs => rw [hrow] at h4; exact ⟨vs, rfl, h4⟩
  | num v => rw [hrow] at h4; exact absurd h4 (by simp [QRow.IsRow4])
  | nan => rw [hrow] at h4; exact absurd h4 (by simp [QRow.IsRow4])

theorem getIdx_row {vs : List ℚ} (h4 : vs.length = 4) {a : Int} (h0 : 0 ≤ a) (h3 : a ≤ 3) :
    ∃ q, getIdx vs a = some q := by
  have hlt : a.toNat < vs.length := by omega
  exact ⟨_, getIdx_of_lt vs a h0 hlt⟩

theorem mathMax_row {vs : List ℚ} (h4 : vs.length = 4) : ∃ m, mathMax vs = some m := by
  cases vs with
  | nil => simp at h4
  | cons v ws => exact ⟨_, rfl⟩

theorem rewardAt_grid {x y : Int} (hx0 : 0 ≤ x) (hx2 : x ≤ 2) (hy0 : 0 ≤ y) (hy2 : y ≤ 2) :
    ∃ r, rewardAt y x = some r := by
  interval_cases x <;> interval_cases y <;> simp [rewardAt, getIdx, REWARDS]

theorem updateQTable_eq (s : Lizard) (p a : Int) (vs ws : List ℚ) (q m : ℚ)
    (hp : getIdx s.QTable p = some (QRow.arr vs)) (hq : getIdx vs a = some q)
    (hn : getIdx s.QTable (s.y * 3 + s.x) = some (QRow.arr ws)) (hm : mathMax ws = some m) :
    updateQTable s p a = some { s with QTable := setIdx s.QTable p (QRow.arr (setIdx vs a
      ((1 - LEARNING_RATE) * q + LEARNING_RATE * (s.cumulativeReward + s.discountRate * m)))) } := by
  simp [updateQTable, hp, hq, hn, hm, spreadMax]

theorem entry_setIdx (t : List QRow) (p a : Int) (vs : List ℚ) (q v : ℚ)
    (hp : getIdx t p = some (QRow.arr vs)) (hq : getIdx vs a = some q) :
    entry (setIdx t p (QRow.arr (setIdx vs a v))) p a = some v := by
  unfold getIdx at hp hq
  split at hp
  · split at hq
    · rename_i h0 h1
      have h2 := (List.getElem?_eq_some.mp hp).1
      have h3 := (List.getElem?_eq_some.mp hq).1
      simp [entry, getIdx, setIdx, h0, h1, h2, h3]
    · simp at hq
  · simp at hp

theorem dispatch_accepted (s : Lizard) (hs : s.WF) (a dx dy : Int) (ha0 : 0 ≤ a) (ha3 : a ≤ 3)
    (hd : getIdx ACTION_DELTAS a = some (dx, dy))
    (hx0 : 0 ≤ s.x + dx) (hx2 : s.x + dx ≤ 2) (hy0 : 0 ≤ s.y + dy) (hy2 : s.y + dy ≤ 2) :
    ∃ r vs q ws m, rewardAt (s.y + dy) (s.x + dx) = some r ∧
      getIdx s.QTable (s.y * 3 + s.x) = some (QRow.arr vs) ∧ vs.length = 4 ∧
      getIdx vs a = some q ∧
      getIdx s.QTable ((s.y + dy) * 3 + (s.x + dx)) = some (QRow.arr ws) ∧
      mathMax ws = some m ∧
      dispatch s a = some (MoveResult.retUndefined, movedState s a dx dy r vs q m) := by
  obtain ⟨hx_lo, hx_hi, hy_lo, hy_hi, hg, ht⟩ := hs
  obtain ⟨r, hr⟩ := rewardAt_grid hx0 hx2 hy0 hy2
  obtain ⟨vs, hvs, hvs4⟩ := getIdx_table ht (i := s.y * 3 + s.x) (by omega) (by omega)
  obtain ⟨q, hq⟩ := getIdx_row hvs4 ha0 ha3
  obtain ⟨ws, hws, hws4⟩ :=
    getIdx_table ht (i := (s.y + dy) * 3 + (s.x + dx)) (by omega) (by omega)
  obtain ⟨m, hm⟩ := mathMax_row hws4
  refine ⟨r, vs, q, ws, m, hr, hvs, hvs4, hq, hws, hm, ?_⟩
  interval_cases a <;> simp [getIdx, ACTION_DELTAS] at hd <;> obtain ⟨rfl, rfl⟩ := hd
  · have hx : s.x ≠ 0 := by omega
    have e : s.y * 3 + (s.x - 1) + 1 = s.y * 3 + s.x := by ring
    simp only [add_zero, Int.add_neg_one] at hr hws ⊢
    simp only [dispatch, left, if_pos, hx, if_false, hr, Option.some_bind, e, ite_true]
    rw [updateQTable_eq _ _ _ vs ws q m (by simpa using hvs) hq (by simpa using hws) hm]
    simp [movedState, sub_eq_add_neg]
  · have hx : s.x ≠ 2 := by omega
    have e : s.y * 3 + (s.x + 1) - 1 = s.y * 3 + s.x := by ring
    simp only [add_zero] at hr hws ⊢
    simp only [dispatch, right, if_pos, hx, if_false, hr, Option.some_bind, e, ite_true,
      one_ne_zero]
    rw [updateQTable_eq _ _ _ vs ws q m (by simpa using hvs) hq (by simpa using hws) hm]
    simp [movedState]
  · have hy : s.y ≠ 0 := by omega
    have e : (s.y - 1 + 1) * 3 + s.x = s.y * 3 + s.x := by ring
    simp only [add_zero, Int.add_neg_one] at hr hws ⊢
    simp only [dispatch, up, if_pos, hy, if_false, hr, Option.some_bind, e, ite_true]
    rw [updateQTable_eq _ _ _ vs ws q m (by simpa using hvs) hq (by simpa using hws) hm]
    simp [movedState, sub_eq_add_neg]
  · have hy : s.y ≠ 2 := by omega
    have e : (s.y + 1 - 1) * 3 + s.x = s.y * 3 + s.x := by ring
    simp only [add_zero] at hr hws ⊢
    simp only [dispatch, down, if_pos, hy, if_false, hr, Option.some_bind, e, ite_true]
    rw [updateQTable_eq _ _ _ vs ws q m (by simpa using hvs) hq (by simpa using hws) hm]
    simp [movedState]

theorem leavesGrid_false {s : Lizard} {a : Int} (ha0 : 0 ≤ a) (ha3 : a ≤ 3)
    (h : leavesGrid s a = false) :
    ∃ dx dy, getIdx ACTION_DELTAS a = some (dx, dy) ∧
      0 ≤ s.x + dx ∧ s.x + dx ≤ 2 ∧ 0 ≤ s.y + dy ∧ s.y + dy ≤ 2 := by
  interval_cases a <;> simp [leavesGrid, getIdx, ACTION_DELTAS] at h
  · exact ⟨-1, 0, by simp [getIdx, ACTION_DELTAS], by omega, by omega, by omega, by omega⟩
  · exact ⟨1, 0, by simp [getIdx, ACTION_DELTAS], by omega, by omega, by omega, by omega⟩
  · exact ⟨0, -1, by simp [getIdx, ACTION_DELTAS], by omega, by omega, by omega, by omega⟩
  · exact ⟨0, 1, by simp [getIdx, ACTION_DELTAS], by omega, by omega, by omega, by omega⟩

theorem dispatch_blocked (s : Lizard) (hs : s.WF) (a : Int) (h : leavesGrid s a = true) :
    dispatch s a = some (MoveResult.retFalse, s) := by
  obtain ⟨hx_lo, hx_hi, hy_lo, hy_hi, -, -⟩ := hs
  have ha : 0 ≤ a ∧ a ≤ 3 := by
    unfold leavesGrid getIdx at h
    by_cases h0 : 0 ≤ a
    · by_cases h3 : a ≤ 3
      · exact ⟨h0, h3⟩
      · have : ACTION_DELTAS[a.toNat]? = none := by
          apply List.getElem?_eq_none
          simp [ACTION_DELTAS]
          omega
        simp [h0, this] at h
    · simp [h0] at h
  obtain ⟨ha0, ha3⟩ := ha
  interval_cases a <;> simp [leavesGrid, getIdx, ACTION_DELTAS] at h
  · have hx : s.x = 0 := by omega
    simp [dispatch, left, hx]
  · have hx : s.x = 2 := by omega
    simp [dispatch, right, hx]
  · have hy : s.y = 0 := by omega
    simp [dispatch, up, hy]
  · have hy : s.y = 2 := by omega
    simp [dispatch, down, hy]

theorem new_wf : Lizard.new.WF where
  x_lo := by decide
  x_hi := by decide
  y_lo := by decide
  y_hi := by decide
  discount := rfl
  table := by simp [IsTable, Lizard.new, QRow.IsRow4]

theorem dispatch_moves (s : Lizard) (hs : s.WF) (a dx dy : Int) (ha0 : 0 ≤ a) (ha3 : a ≤ 3)
    (hd : getIdx ACTION_DELTAS a = some (dx, dy))
    (hx0 : 0 ≤ s.x + dx) (hx2 : s.x + dx ≤ 2) (hy0 : 0 ≤ s.y + dy) (hy2 : s.y + dy ≤ 2) :
    ∃ s' r, dispatch s a = some (MoveResult.retUndefined, s') ∧ s'.x = s.x + dx ∧
      s'.y = s.y + dy ∧ rewardAt s'.y s'.x = some r ∧
      s'.cumulativeReward = s.cumulativeReward + r := by
  obtain ⟨r, vs, q, ws, m, hr, -, -, -, -, -, hdis⟩ :=
    dispatch_accepted s hs a dx dy ha0 ha3 hd hx0 hx2 hy0 hy2
  exact ⟨_, r, hdis, rfl, rfl, hr, rfl⟩

/-! ## The bookkeeping of `step` -/

@[simp] theorem countAndDecay_x (s : Lizard) : (countAndDecay s).x = s.x := by
  simp only [countAndDecay]; split_ifs <;> rfl

@[simp] theorem countAndDecay_y (s : Lizard) : (countAndDecay s).y = s.y := by
  simp only [countAndDecay]; split_ifs <;> rfl

@[simp] theorem countAndDecay_cumulativeReward (s : Lizard) :
    (countAndDecay s).cumulativeReward = s.cumulativeReward := by
  simp only [countAndDecay]; split_ifs <;> rfl

@[simp] theorem countAndDecay_stepCount (s : Lizard) :
    (countAndDecay s).stepCount = s.stepCount + 1 := by
  simp only [countAndDecay]; split_ifs <;> rfl

@[simp] theorem countAndDecay_discountRate (s : Lizard) :
    (countAndDecay s).discountRate = s.discountRate := by
  simp only [countAndDecay]; split_ifs <;> rfl

@[simp] theorem countAndDecay_QTable (s : Lizard) : (countAndDecay s).QTable = s.QTable := by
  simp only [countAndDecay]; split_ifs <;> rfl

@[simp] theorem countAndDecay_steps (s : Lizard) : (countAndDecay s).steps = s.steps := by
  simp only [countAndDecay]; split_ifs <;> rfl

theorem countAndDecay_explorationRate (s : Lizard) :
    (countAndDecay s).explorationRate = decay s.explorationRate := by
  simp only [countAndDecay, decay]; split_ifs <;> rfl

theorem step_blocked (s : Lizard) (hs : s.WF) (r1 r2 : ℚ) (a : Int)
    (hc : chooseAction s r1 r2 = some a) (hb : leavesGrid s a = true) :
    step s r1 r2 = some (countAndDecay s) := by
  rw [step, hc, Option.some_bind, dispatch_blocked s hs a hb, Option.map_some']

/-! ## The probe state -/

theorem blockedProbe_wf : blockedProbe.WF :=
  ⟨by decide, by decide, by decide, by decide, rfl,
    by simp [IsTable, blockedProbe, Lizard.new, setIdx, QRow.IsRow4]⟩

theorem blockedProbe_choose : chooseAction blockedProbe 0 0 = some 0 := by
  norm_num [chooseAction, blockedProbe, Lizard.new]

theorem blockedProbe_leaves : leavesGrid blockedProbe 0 = true := by decide

theorem blockedProbe_entry : entry blockedProbe.QTable 3 0 = some 0 := by
  simp [blockedProbe, entry, getIdx, setIdx, Lizard.new]

theorem blockedProbe_rowMax : rowMax blockedProbe.QTable 3 = some 0 := by
  simp [blockedProbe, rowMax, spreadMax, mathMax, getIdx, setIdx, Lizard.new]

/-! ## The greedy index -/

theorem foldl_max_ge_init (vs : List ℚ) (v : ℚ) : v ≤ vs.foldl max v := by
  induction vs generalizing v with
  | nil => exact le_refl v
  | cons w ws ih => exact le_trans (le_max_left v w) (ih (max v w))

theorem foldl_max_ge_mem (vs : List ℚ) (v w : ℚ) (hw : w ∈ vs) : w ≤ vs.foldl max v := by
  induction vs generalizing v with
  | nil => simp at hw
  | cons u us ih =>
    rcases List.mem_cons.mp hw with rfl | h
    · exact le_trans (le_max_right v w) (foldl_max_ge_init us (max v w))
    · exact ih (max v u) h

theorem foldl_max_mem (vs : List ℚ) (v : ℚ) : vs.foldl max v ∈ v :: vs := by
  induction vs generalizing v with
  | nil => simp
  | cons u us ih =>
    have h := ih (max v u)
    rcases List.mem_cons.mp h with h1 | h1
    · rcases max_choice v u with h2 | h2
      · rw [List.foldl_cons, h1, h2]; exact List.mem_cons_self _ _
      · rw [List.foldl_cons, h1, h2]; exact List.mem_cons_of_mem _ (List.mem_cons_self _ _)
    · exact List.mem_cons_of_mem _ (List.mem_cons_of_mem _ h1)

theorem mathMax_spec {vs : List ℚ} {m : ℚ} (h : mathMax vs = some m) :
    m ∈ vs ∧ ∀ w ∈ vs, w ≤ m := by
  cases vs with
  | nil => simp [mathMax] at h
  | cons v ws =>
    have hm : ws.foldl max v = m := Option.some.inj h
    subst hm
    refine ⟨foldl_max_mem ws v, fun w hw => ?_⟩
    rcases List.mem_cons.mp hw with rfl | h1
    · exact foldl_max_ge_init ws w
    · exact foldl_max_ge_mem ws v w h1

theorem indexOfFrom_spec (vs : List ℚ) (v : ℚ) (k : Int) (hv : v ∈ vs) :
    ∃ n : Nat, n < vs.length ∧ indexOfFrom vs v k = k + n ∧ vs[n]? = some v ∧
      ∀ j : Nat, j < n → vs[j]? ≠ some v := by
  induction vs generalizing k with
  | nil => simp at hv
  | cons w ws ih =>
    by_cases hw : w = v
    · refine ⟨0, by simp, by simp [indexOfFrom, hw], by simp [hw], fun j hj => ?_⟩
      omega
    · have hv' : v ∈ ws := by
        rcases List.mem_cons.mp hv with h | h
        · exact absurd h.symm hw
        · exact h
      obtain ⟨n, hn, hi, hg, hl⟩ := ih (k + 1) hv'
      refine ⟨n + 1, by simp [hn], ?_, by simpa using hg, fun j hj => ?_⟩
      · simp only [indexOfFrom, if_neg hw, hi]
        push_cast
        ring
      · cases j with
        | zero => simpa using hw
        | succ i => simpa using hl i (by omega)

theorem greedyIdx_spec (vs : List ℚ) (hne : vs ≠ []) :
    ∃ (m : ℚ) (n : Nat), mathMax vs = some m ∧ (∀ w ∈ vs, w ≤ m) ∧
      greedyIdx vs = some (n : Int) ∧ n < vs.length ∧ vs[n]? = some m ∧
      ∀ j : Nat, j < n → vs[j]? ≠ some m := by
  cases vs with
  | nil => exact absurd rfl hne
  | cons v ws =>
    have hmax : mathMax (v :: ws) = some (ws.foldl max v) := rfl
    obtain ⟨hmem, hle⟩ := mathMax_spec hmax
    obtain ⟨n, hn, hi, hg, hl⟩ := indexOfFrom_spec (v :: ws) _ 0 hmem
    refine ⟨_, n, hmax, hle, ?_, hn, hg, hl⟩
    simp [greedyIdx, hmax, indexOf, hi]

/-! ## The playback iteration -/

theorem minusHundred_row {vs : List ℚ} (h4 : vs.length = 4) :
    minusHundred (QRow.arr vs) = QRow.nan := by
  match vs, h4 with
  | [_, _, _, _], _ => rfl

theorem display_of_isTable (s : Lizard) (h : IsTable s.QTable) : display s = true := by
  simp only [display, List.all_eq_true]
  intro r hr
  have h4 := h.2 r hr
  cases r <;> simp_all [QRow.IsRow4, QRow.isArr]

theorem mem_of_getIdx {α : Type} {xs : List α} {i : Int} {v : α} (h : getIdx xs i = some v) :
    v ∈ xs := by
  unfold getIdx at h
  split at h
  · exact List.mem_iff_getElem?.mpr ⟨_, h⟩
  · simp at h

theorem display_of_not_arr (s : Lizard) (i : Int) (r : QRow) (h : getIdx s.QTable i = some r)
    (hr : r.isArr = false) : display s = false := by
  rw [Bool.eq_false_iff]
  intro hd
  simp only [display, List.all_eq_true] at hd
  have := hd r (mem_of_getIdx h)
  simp [hr] at this

theorem getIdx_setIdx_same {α : Type} (xs : List α) (i : Int) (v : α) (h0 : 0 ≤ i)
    (h1 : i.toNat < xs.length) : getIdx (setIdx xs i v) i = some v := by
  simp [getIdx, setIdx, h0, h1]

theorem showResultBody_blocked (s : Lizard) (hs : s.WF) (ht : atTerminal s = false) (a : Int)
    (hbest : bestAction s = some a) (hb : leavesGrid s a = true) :
    showResultBody s =
      some (false, { s with QTable := setIdx s.QTable (s.y * 3 + s.x) QRow.nan }) := by
  obtain ⟨vs, hvs, hvs4⟩ := getIdx_table hs.table (i := s.y * 3 + s.x)
    (by have := hs.x_lo; have := hs.y_lo; omega)
    (by have := hs.x_hi; have := hs.y_hi; omega)
  have hd : ∃ action, getIdx ACTION_DELTAS a = some action := by
    cases hda : getIdx ACTION_DELTAS a with
    | none => simp [leavesGrid, hda] at hb
    | some action => exact ⟨action, rfl⟩
  obtain ⟨action, hda⟩ := hd
  simp [showResultBody, ht, hvs, hbest, hda, hb, minusHundred_row hvs4]

theorem showResultTick_blocked (s : Lizard) (hs : s.WF) (ht : atTerminal s = false) (a : Int)
    (hbest : bestAction s = some a) (hb : leavesGrid s a = true) :
    showResultTick s =
      Outcome.threw { s with QTable := setIdx s.QTable (s.y * 3 + s.x) QRow.nan } := by
  have hbody := showResultBody_blocked s hs ht a hbest hb
  have hlen := hs.table.1
  have hd : display { s with QTable := setIdx s.QTable (s.y * 3 + s.x) QRow.nan } = false :=
    display_of_not_arr _ (s.y * 3 + s.x) QRow.nan
      (getIdx_setIdx_same _ _ _ (by have := hs.x_lo; have := hs.y_lo; omega)
        (by have := hs.x_hi; have := hs.y_hi; have := hs.x_lo; have := hs.y_lo; omega)) rfl
  simp only [showResultTick, hbody, hd]
  rfl

/-! ## Every call returns and keeps the state well formed -/

theorem isTable_setIdx {t : List QRow} (ht : IsTable t) (i : Int) (vs : List ℚ)
    (h4 : vs.length = 4) (a : Int) (v : ℚ) :
    IsTable (setIdx t i (QRow.arr (setIdx vs a v))) := by
  obtain ⟨hl, hr⟩ := ht
  refine ⟨by simp [setIdx, hl], fun r hr' => ?_⟩
  rcases List.mem_or_eq_of_mem_set hr' with h | h
  · exact hr r h
  · subst h
    simp [QRow.IsRow4, setIdx, h4]

theorem dispatch_total (s : Lizard) (hs : s.WF) (a : Int) :
    ∃ res s', dispatch s a = some (res, s') ∧ s'.WF ∧
      s'.explorationRate = s.explorationRate ∧ s'.stepCount = s.stepCount := by
  have key : ∀ b : Int, 0 ≤ b → b ≤ 3 → ∃ res s', dispatch s b = some (res, s') ∧ s'.WF ∧
      s'.explorationRate = s.explorationRate ∧ s'.stepCount = s.stepCount := by
    intro b hb0 hb3
    cases hlg : leavesGrid s b with
    | true => exact ⟨_, _, dispatch_blocked s hs b hlg, hs, rfl, rfl⟩
    | false =>
      obtain ⟨dx, dy, hd, hx0, hx2, hy0, hy2⟩ := leavesGrid_false hb0 hb3 hlg
      obtain ⟨r, vs, q, ws, m, -, -, hvs4, -, -, -, hdis⟩ :=
        dispatch_accepted s hs b dx dy hb0 hb3 hd hx0 hx2 hy0 hy2
      exact ⟨_, _, hdis,
        ⟨hx0, hx2, hy0, hy2, hs.discount, isTable_setIdx hs.table _ vs hvs4 _ _⟩, rfl, rfl⟩
  by_cases h0 : a = 0
  · subst h0; exact key 0 (by decide) (by decide)
  by_cases h1 : a = 1
  · subst h1; exact key 1 (by decide) (by decide)
  by_cases h2 : a = 2
  · subst h2; exact key 2 (by decide) (by decide)
  have h3 : dispatch s a = dispatch s 3 := by simp [dispatch, h0, h1, h2]
  rw [h3]
  exact key 3 (by decide) (by decide)

theorem bestAction_total (s : Lizard) (hs : s.WF) :
    ∃ a, bestAction s = some a ∧ 0 ≤ a ∧ a ≤ 3 := by
  obtain ⟨vs, hvs, hvs4⟩ := getIdx_table hs.table (i := s.y * 3 + s.x)
    (by have := hs.x_lo; have := hs.y_lo; omega)
    (by have := hs.x_hi; have := hs.y_hi; omega)
  have hne : vs ≠ [] := by
    intro h
    simp [h] at hvs4
  obtain ⟨m, n, -, -, hg, hn, -, -⟩ := greedyIdx_spec vs hne
  exact ⟨n, by simp [bestAction, hvs, hg], by omega, by omega⟩

theorem chooseAction_total (s : Lizard) (hs : s.WF) (r1 r2 : ℚ) :
    ∃ a, chooseAction s r1 r2 = some a := by
  by_cases h : r1 ≤ s.explorationRate
  · exact ⟨⌊r2 * 4⌋, by simp [chooseAction, h]⟩
  · obtain ⟨a, ha, -, -⟩ := bestAction_total s hs
    exact ⟨a, by simp [chooseAction, h, ha]⟩

theorem countAndDecay_wf {s : Lizard} (hs : s.WF) : (countAndDecay s).WF :=
  ⟨by simpa using hs.x_lo, by simpa using hs.x_hi, by simpa using hs.y_lo,
    by simpa using hs.y_hi, by simpa using hs.discount, by simpa using hs.table⟩

theorem step_total (s : Lizard) (hs : s.WF) (r1 r2 : ℚ) :
    ∃ s', step s r1 r2 = some s' ∧ s'.WF ∧ s'.stepCount = s.stepCount + 1 ∧
      s'.explorationRate = decay s.explorationRate := by
  obtain ⟨a, ha⟩ := chooseAction_total s hs r1 r2
  obtain ⟨res, s1, hd, hwf, he, hc⟩ := dispatch_total s hs a
  refine ⟨countAndDecay s1, ?_, countAndDecay_wf hwf, by simp [hc], ?_⟩
  · rw [step, ha, Option.some_bind, hd, Option.map_some']
  · rw [countAndDecay_explorationRate, he]

theorem resetPosition_wf {s : Lizard} (hs : s.WF) : (resetPosition s).WF :=
  ⟨by simp [resetPosition], by simp [resetPosition], by simp [resetPosition],
    by simp [resetPosition], hs.discount, hs.table⟩

/-! ## Sequences of calls and the exploration rate -/

theorem runCall_total (s : Lizard) (hs : s.WF) (c : Call) :
    ∃ s', runCall s c = some s' ∧ s'.WF ∧
      s'.explorationRate = decay^[stepCalls [c]] s.explorationRate := by
  cases c with
  | step r1 r2 =>
    obtain ⟨s', h1, h2, -, h3⟩ := step_total s hs r1 r2
    exact ⟨s', h1, h2, by simpa [stepCalls] using h3⟩
  | resetPosition => exact ⟨_, rfl, resetPosition_wf hs, rfl⟩

theorem runCalls_total (s : Lizard) (hs : s.WF) (cs : List Call) :
    ∃ s', runCalls s cs = some s' ∧ s'.WF ∧
      s'.explorationRate = decay^[stepCalls cs] s.explorationRate := by
  induction cs generalizing s with
  | nil => exact ⟨s, rfl, hs, rfl⟩
  | cons c cs ih =>
    obtain ⟨s1, h1, hwf1, he1⟩ := runCall_total s hs c
    obtain ⟨s2, h2, hwf2, he2⟩ := ih s1 hwf1
    refine ⟨s2, by simp [runCalls, h1, h2], hwf2, ?_⟩
    rw [he2, he1]
    cases c with
    | step r1 r2 => simp [stepCalls, Function.iterate_succ_apply]
    | resetPosition => simp [stepCalls]

theorem runCalls_append (s : Lizard) (cs ds : List Call) :
    runCalls s (cs ++ ds) = (runCalls s cs).bind fun s1 => runCalls s1 ds := by
  induction cs generalizing s with
  | nil => rfl
  | cons c cs ih =>
    cases h : runCall s c with
    | none => simp [runCalls, h]
    | some s1 => simp [runCalls, h, ih]

theorem stepCalls_replicate (n : Nat) (r1 r2 : ℚ) :
    stepCalls (List.replicate n (Call.step r1 r2)) = n := by
  induction n with
  | zero => rfl
  | succ k ih => simp [List.replicate_succ, stepCalls, ih]

/-! ## Double precision: the decay of the exploration rate -/

theorem log_two_eq {q : ℚ} {e : ℤ} (hq : 0 < q) (h1 : (2 : ℚ) ^ e ≤ q)
    (h2 : q < (2 : ℚ) ^ (e + 1)) : Int.log 2 |q| = e := by
  rw [abs_of_pos hq]
  have a : e ≤ Int.log 2 q := (Int.zpow_le_iff_le_log (by norm_num) hq).mp (by exact_mod_cast h1)
  have b : Int.log 2 q < e + 1 :=
    (Int.lt_zpow_iff_log_lt (by norm_num) hq).mp (by exact_mod_cast h2)
  omega

theorem roundHalfEven_split (f r k : ℕ) (hr : r < 2 ^ k) :
    roundHalfEven ((f : ℚ) + (r : ℚ) / 2 ^ k) =
      if 2 * r < 2 ^ k then (f : ℤ)
      else if 2 ^ k < 2 * r then (f : ℤ) + 1
      else if f % 2 = 0 then (f : ℤ) else (f : ℤ) + 1 := by
  have hpos : (0 : ℚ) < 2 ^ k := by positivity
  have hrq : (r : ℚ) < 2 ^ k := by exact_mod_cast hr
  have h0 : (0 : ℚ) ≤ (r : ℚ) / 2 ^ k := by positivity
  have h1 : (r : ℚ) / 2 ^ k < 1 := (div_lt_one hpos).mpr hrq
  have hfl : ⌊(f : ℚ) + (r : ℚ) / 2 ^ k⌋ = (f : ℤ) := by
    rw [Int.floor_eq_iff]
    constructor
    · push_cast; linarith
    · push_cast; linarith
  have hfrac : (f : ℚ) + (r : ℚ) / 2 ^ k - ((f : ℤ) : ℚ) = (r : ℚ) / 2 ^ k := by
    push_cast; ring
  have c1 : (r : ℚ) / 2 ^ k < 1 / 2 ↔ 2 * r < 2 ^ k := by
    rw [div_lt_iff hpos]
    constructor
    · intro h
      have : ((2 * r : ℕ) : ℚ) < ((2 ^ k : ℕ) : ℚ) := by push_cast; linarith
      exact_mod_cast this
    · intro h
      have : ((2 * r : ℕ) : ℚ) < ((2 ^ k : ℕ) : ℚ) := by exact_mod_cast h
      push_cast at this; linarith
  have c2 : 1 / 2 < (r : ℚ) / 2 ^ k ↔ 2 ^ k < 2 * r := by
    rw [lt_div_iff hpos]
    constructor
    · intro h
      have : ((2 ^ k : ℕ) : ℚ) < ((2 * r : ℕ) : ℚ) := by push_cast; linarith
      exact_mod_cast this
    · intro h
      have : ((2 ^ k : ℕ) : ℚ) < ((2 * r : ℕ) : ℚ) := by exact_mod_cast h
      push_cast at this; linarith
  have c3 : (f : ℤ) % 2 = 0 ↔ f % 2 = 0 := by omega
  unfold roundHalfEven
  simp only [hfl, hfrac, c1, c2, c3]

theorem roundHalfEven_nat (m k : ℕ) :
    roundHalfEven ((m : ℚ) / 2 ^ k) = (rheNat m k : ℤ) := by
  have hpos : (0 : ℚ) < 2 ^ k := by positivity
  have hr : m % 2 ^ k < 2 ^ k := Nat.mod_lt _ (by positivity)
  have hdm : (m : ℚ) = ((m / 2 ^ k : ℕ) : ℚ) * 2 ^ k + ((m % 2 ^ k : ℕ) : ℚ) := by
    have h2 : ((2 ^ k * (m / 2 ^ k) + m % 2 ^ k : ℕ) : ℚ) = (m : ℚ) := by
      rw [Nat.div_add_mod m (2 ^ k)]
    push_cast at h2
    linarith
  have hq : (m : ℚ) / 2 ^ k = ((m / 2 ^ k : ℕ) : ℚ) + ((m % 2 ^ k : ℕ) : ℚ) / 2 ^ k := by
    field_simp
    linarith
  rw [hq, roundHalfEven_split _ _ k hr]
  unfold rheNat
  simp only
  split_ifs <;> push_cast <;> rfl

theorem roundBits_spec (m : ℕ) (h1 : 2 ^ 57 ≤ m) (h2 : m < 2 ^ 60) :
    roundDouble ((m : ℚ) / 2 ^ 60) = (roundBits m : ℚ) / 2 ^ 60 := by
  have hm : (0 : ℚ) < (m : ℚ) / 2 ^ 60 := by
    have : (0 : ℚ) < m := by exact_mod_cast (lt_of_lt_of_le (by norm_num) h1)
    positivity
  have h1q : ((2 : ℚ) ^ 57) ≤ (m : ℚ) := by exact_mod_cast h1
  have h2q : (m : ℚ) < (2 : ℚ) ^ 60 := by exact_mod_cast h2
  by_cases ha : m < 2 ^ 58
  · have haq : (m : ℚ) < (2 : ℚ) ^ 58 := by exact_mod_cast ha
    have he : Int.log 2 |(m : ℚ) / 2 ^ 60| = -3 := by
      apply log_two_eq hm
      · rw [le_div_iff (by positivity)]; norm_num; linarith
      · rw [div_lt_iff (by positivity)]; norm_num; linarith
    have hk : (m : ℚ) / 2 ^ 60 / 2 ^ ((-3 : ℤ) - 52) = (m : ℚ) / 2 ^ 5 := by
      norm_num; ring
    unfold roundDouble
    simp only [he, hk, roundHalfEven_nat, roundBits, if_pos ha]
    push_cast
    norm_num
    ring
  · by_cases hb : m < 2 ^ 59
    · have haq : (2 : ℚ) ^ 58 ≤ (m : ℚ) := by exact_mod_cast (not_lt.mp ha)
      have hbq : (m : ℚ) < (2 : ℚ) ^ 59 := by exact_mod_cast hb
      have he : Int.log 2 |(m : ℚ) / 2 ^ 60| = -2 := by
        apply log_two_eq hm
        · rw [le_div_iff (by positivity)]; norm_num; linarith
        · rw [div_lt_iff (by positivity)]; norm_num; linarith
      have hk : (m : ℚ) / 2 ^ 60 / 2 ^ ((-2 : ℤ) - 52) = (m : ℚ) / 2 ^ 6 := by
        norm_num; ring
      unfold roundDouble
      simp only [he, hk, roundHalfEven_nat, roundBits, if_neg ha, if_pos hb]
      push_cast
      norm_num
      ring
    · have hbq : (2 : ℚ) ^ 59 ≤ (m : ℚ) := by exact_mod_cast (not_lt.mp hb)
      have he : Int.log 2 |(m : ℚ) / 2 ^ 60| = -1 := by
        apply log_two_eq hm
        · rw [le_div_iff (by positivity)]; norm_num; linarith
        · rw [div_lt_iff (by positivity)]; norm_num; linarith
      have hk : (m : ℚ) / 2 ^ 60 / 2 ^ ((-1 : ℤ) - 52) = (m : ℚ) / 2 ^ 7 := by
        norm_num; ring
      unfold roundDouble
      simp only [he, hk, roundHalfEven_nat, roundBits, if_neg ha, if_neg hb]
      push_cast
      norm_num
      ring

theorem rheNat_le (m k : ℕ) : rheNat m k * 2 ^ k ≤ m + 2 ^ k := by
  have h1 : rheNat m k ≤ m / 2 ^ k + 1 := by
    unfold rheNat
    simp only
    split_ifs <;> omega
  have h2 : m / 2 ^ k * 2 ^ k ≤ m := Nat.div_mul_le_self m (2 ^ k)
  calc rheNat m k * 2 ^ k ≤ (m / 2 ^ k + 1) * 2 ^ k := Nat.mul_le_mul_right _ h1
    _ = m / 2 ^ k * 2 ^ k + 2 ^ k := by ring
    _ ≤ m + 2 ^ k := by omega

theorem roundBits_le (m : ℕ) : roundBits m ≤ m + 128 := by
  unfold roundBits
  simp only
  split_ifs
  · have := rheNat_le m 5; norm_num at this ⊢; omega
  · have := rheNat_le m 6; norm_num at this ⊢; omega
  · have := rheNat_le m 7; norm_num at this ⊢; omega

theorem decayBits_le (n : ℕ) : decayBits n ≤ n := by
  unfold decayBits
  split_ifs with h
  · have := roundBits_le (n - 5764607523034235)
    omega
  · exact le_refl n

theorem decay_bits (n : ℕ) (hn : n ≤ 2 ^ 60) :
    decay ((n : ℚ) / 2 ^ 60) = (decayBits n : ℚ) / 2 ^ 60 := by
  unfold decay decayBits
  have hcmp : (n : ℚ) / 2 ^ 60 > FLOOR_RATE ↔ n > 230584300921369408 := by
    have e : FLOOR_RATE = ((230584300921369408 : ℕ) : ℚ) / 2 ^ 60 := by
      unfold FLOOR_RATE; norm_num
    rw [e, gt_iff_lt, div_lt_div_right (by positivity)]
    exact Nat.cast_lt
  by_cases h : n > 230584300921369408
  · rw [if_pos (hcmp.mpr h), if_pos h]
    have hsub : (n : ℚ) / 2 ^ 60 - DECREMENT = ((n - 5764607523034235 : ℕ) : ℚ) / 2 ^ 60 := by
      unfold DECREMENT
      rw [Nat.cast_sub (by omega)]
      push_cast
      ring
    rw [hsub]
    exact roundBits_spec _ (by norm_num; omega) (by norm_num at hn ⊢; omega)
  · rw [if_neg (fun h' => h (hcmp.mp h')), if_neg h]

theorem decayBits_iterate_le (n : ℕ) : decayBits^[n] (2 ^ 60) ≤ 2 ^ 60 := by
  induction n with
  | zero => exact le_refl _
  | succ k ih =>
    rw [Function.iterate_succ_apply']
    exact le_trans (decayBits_le _) ih

theorem decay_iterate_bits (n : ℕ) :
    decay^[n] 1 = (decayBits^[n] (2 ^ 60) : ℚ) / 2 ^ 60 := by
  induction n with
  | zero => norm_num
  | succ k ih =>
    rw [Function.iterate_succ_apply', Function.iterate_succ_apply', ih]
    exact decay_bits _ (decayBits_iterate_le k)

set_option maxRecDepth 100000 in
theorem decayBits_at_160 : decayBits^[160] (2 ^ 60) = 230584300921368576 := by decide

theorem decayBits_after_160 (n : ℕ) (hn : 160 ≤ n) :
    decayBits^[n] (2 ^ 60) = 230584300921368576 := by
  induction n with
  | zero => omega
  | succ k ih =>
    rcases Nat.lt_or_ge k 160 with h | h
    · have hk : k + 1 = 160 := by omega
      rw [hk]; exact decayBits_at_160
    · rw [Function.iterate_succ_apply', ih h]
      decide

theorem decayBits_antitone (n : ℕ) : decayBits^[n + 1] (2 ^ 60) ≤ decayBits^[n] (2 ^ 60) := by
  rw [Function.iterate_succ_apply']
  exact decayBits_le _

theorem decayBits_ge (n : ℕ) : 230584300921368576 ≤ decayBits^[n] (2 ^ 60) := by
  have key : ∀ d n : ℕ, n + d = 160 → 230584300921368576 ≤ decayBits^[n] (2 ^ 60) := by
    intro d
    induction d with
    | zero => intro n hd; rw [Nat.add_zero] at hd; rw [hd, decayBits_at_160]
    | succ d ih =>
      intro n hd
      exact le_trans (ih (n + 1) (by omega)) (decayBits_antitone n)
  rcases Nat.lt_or_ge n 160 with h | h
  · exact key (160 - n) n (by omega)
  · rw [decayBits_after_160 n h]

set_option maxRecDepth 1000000 in
theorem closeBits_upto_160 : ∀ n, n < 161 → closeBits n = true := by decide

theorem decay_iterate_close (n : ℕ) :
    |decay^[n] 1 - max (1 - (n : ℚ) * (5 / 1000)) (2 / 10)| ≤ 1 / 10 ^ 15 := by
  rw [decay_iterate_bits]
  rcases Nat.lt_or_ge n 161 with h | h
  · have hc := closeBits_upto_160 n h
    simp only [closeBits, Bool.and_eq_true, decide_eq_true_eq] at hc
    obtain ⟨h1, h2⟩ := hc
    generalize decayBits^[n] (2 ^ 60) = t at h1 h2 ⊢
    have hn : (n : ℚ) ≤ 160 := by exact_mod_cast (by omega : n ≤ 160)
    have hsub : ((200 - n : ℕ) : ℚ) = 200 - (n : ℚ) := by
      rw [Nat.cast_sub (by omega)]; norm_num
    have h1q : ((200 * t * 10 ^ 15 : ℕ) : ℚ) ≤
        (((200 - n) * 2 ^ 60 * 10 ^ 15 + 200 * 2 ^ 60 : ℕ) : ℚ) := by exact_mod_cast h1
    have h2q : (((200 - n) * 2 ^ 60 * 10 ^ 15 : ℕ) : ℚ) ≤
        ((200 * t * 10 ^ 15 + 200 * 2 ^ 60 : ℕ) : ℚ) := by
      exact_mod_cast h2
    push_cast at h1q h2q
    rw [hsub] at h1q h2q
    rw [max_eq_left (by linarith)]
    have e : (t : ℚ) / 2 ^ 60 * 2 ^ 60 = t := by field_simp
    rw [abs_le]
    constructor
    · have : (-(1 / 10 ^ 15) + (1 - (n : ℚ) * (5 / 1000))) * 2 ^ 60 ≤
          (t : ℚ) / 2 ^ 60 * 2 ^ 60 := by
        rw [e]; norm_num at h1q h2q ⊢; linarith
      have h3 := le_of_mul_le_mul_right this (by positivity)
      linarith
    · have : (t : ℚ) / 2 ^ 60 * 2 ^ 60 ≤
          (1 / 10 ^ 15 + (1 - (n : ℚ) * (5 / 1000))) * 2 ^ 60 := by
        rw [e]; norm_num at h1q h2q ⊢; linarith
      have h3 := le_of_mul_le_mul_right this (by positivity)
      linarith
  · rw [decayBits_after_160 n (by omega)]
    have hn : (160 : ℚ) < (n : ℚ) := by exact_mod_cast (by omega : 160 < n)
    rw [max_eq_right (by linarith)]
    norm_num [abs_le]

theorem roundHalfEven_near (x : ℚ) :
    x - 1 / 2 ≤ (roundHalfEven x : ℚ) ∧ (roundHalfEven x : ℚ) ≤ x + 1 / 2 := by
  have h1 := Int.floor_le x
  have h2 := Int.lt_floor_add_one x
  unfold roundHalfEven
  simp only
  split_ifs with a b c
  · constructor <;> linarith
  · constructor <;> push_cast <;> linarith
  · constructor <;> linarith
  · constructor <;> push_cast <;> linarith

theorem roundDouble_near (q : ℚ) (hq : 0 < q) :
    q * (1 - 1 / 2 ^ 53) ≤ roundDouble q ∧ roundDouble q ≤ q * (1 + 1 / 2 ^ 53) := by
  have hu : (0 : ℚ) < 2 ^ (Int.log 2 |q| - 52) := by positivity
  have hle : (2 : ℚ) ^ (Int.log 2 |q| - 52) ≤ q / 2 ^ 52 := by
    rw [zpow_sub₀ (by norm_num)]
    have h := Int.zpow_log_le_self (b := 2) (r := q) (by norm_num) hq
    rw [abs_of_pos hq]
    have h' : ((2 : ℕ) : ℚ) ^ Int.log 2 q ≤ q := h
    push_cast at h'
    have e : ((2 : ℚ) ^ (52 : ℤ)) = 2 ^ 52 := by norm_num
    rw [e]
    exact div_le_div_of_nonneg_right h' (by positivity)
  obtain ⟨h1, h2⟩ := roundHalfEven_near (q / 2 ^ (Int.log 2 |q| - 52))
  unfold roundDouble
  simp only
  set u := (2 : ℚ) ^ (Int.log 2 |q| - 52) with hudef
  have e1 : q / u * u = q := by field_simp
  constructor
  · have : (q / u - 1 / 2) * u ≤ (roundHalfEven (q / u) : ℚ) * u :=
      mul_le_mul_of_nonneg_right h1 hu.le
    have e2 : (q / u - 1 / 2) * u = q - u / 2 := by rw [sub_mul, e1]; ring
    rw [e2] at this
    have : q * (1 - 1 / 2 ^ 53) ≤ q - u / 2 := by
      have : u / 2 ≤ q / 2 ^ 52 / 2 := by linarith
      have e3 : q * (1 - 1 / 2 ^ 53) = q - q / 2 ^ 52 / 2 := by ring
      rw [e3]; linarith
    linarith
  · have : (roundHalfEven (q / u) : ℚ) * u ≤ (q / u + 1 / 2) * u :=
      mul_le_mul_of_nonneg_right h2 hu.le
    have e2 : (q / u + 1 / 2) * u = q + u / 2 := by rw [add_mul, e1]; ring
    rw [e2] at this
    have : q + u / 2 ≤ q * (1 + 1 / 2 ^ 53) := by
      have : u / 2 ≤ q / 2 ^ 52 / 2 := by linarith
      have e3 : q * (1 + 1 / 2 ^ 53) = q + q / 2 ^ 52 / 2 := by ring
      rw [e3]; linarith
    linarith

theorem decay_bounds (e : ℚ) (h : 2 / 10 ≤ e) :
    1949 / 10000 < decay e ∧ (e ≤ 1 → decay e ≤ e) ∧ (e ≤ FLOOR_RATE → decay e = e) := by
  unfold decay
  refine ⟨?_, fun h1 => ?_, fun h2 => if_neg (not_lt.mpr h2)⟩
  · split_ifs with hg
    · have hq : 0 < e - DECREMENT := by
        unfold FLOOR_RATE at hg; unfold DECREMENT; norm_num at hg ⊢; linarith
      have hb := (roundDouble_near _ hq).1
      have hlow : (195 : ℚ) / 1000 < e - DECREMENT := by
        unfold FLOOR_RATE at hg; unfold DECREMENT; norm_num at hg ⊢; linarith
      have : (195 : ℚ) / 1000 * (1 - 1 / 2 ^ 53) ≤ (e - DECREMENT) * (1 - 1 / 2 ^ 53) :=
        mul_le_mul_of_nonneg_right hlow.le (by norm_num)
      have h3 : (1949 : ℚ) / 10000 < 195 / 1000 * (1 - 1 / 2 ^ 53) := by norm_num
      linarith
    · linarith
  · split_ifs with hg
    · have hq : 0 < e - DECREMENT := by
        unfold FLOOR_RATE at hg; unfold DECREMENT; norm_num at hg ⊢; linarith
      have hb := (roundDouble_near _ hq).2
      have : (e - DECREMENT) * (1 + 1 / 2 ^ 53) ≤ e := by
        unfold DECREMENT; norm_num; linarith
      linarith
    · exact le_refl e

theorem decay_nonneg (e : ℚ) (h : 0 ≤ e) : 0 ≤ decay e := by
  unfold decay
  split_ifs with hg
  · have hq : 0 < e - DECREMENT := by
      unfold FLOOR_RATE at hg; unfold DECREMENT; norm_num at hg ⊢; linarith
    have hb := (roundDouble_near _ hq).1
    have : 0 ≤ (e - DECREMENT) * (1 - 1 / 2 ^ 53) := mul_nonneg hq.le (by norm_num)
    linarith
  · exact h

theorem countAndDecay_eq (s : Lizard) :
    countAndDecay s =
      { s with stepCount := s.stepCount + 1, explorationRate := decay s.explorationRate } := by
  simp only [countAndDecay, decay]; split_ifs <;> rfl

set_option maxRecDepth 100000 in
theorem decay_one : decay 1 = 8962163258467287 / 2 ^ 53 := by
  have h := decay_bits (2 ^ 60) (le_refl _)
  have hb : decayBits (2 ^ 60) = 1147156897083812736 := by decide
  rw [hb] at h
  norm_num at h ⊢
  exact h

set_option maxRecDepth 100000 in
theorem decay_at_0201 : decay (3620894100405879 / 2 ^ 54) = 3530822107858469 / 2 ^ 54 := by
  have h := decay_bits 231737222425976256 (by norm_num)
  have hb : decayBits 231737222425976256 = 225972614902942016 := by decide
  rw [hb] at h
  norm_num at h ⊢
  exact h

set_option maxRecDepth 100000 in
theorem decay_at_0205 : decay (7385903388887613 / 2 ^ 55) = 7205759403792793 / 2 ^ 55 := by
  have h := decay_bits 236348908444403616 (by norm_num)
  have hb : decayBits 236348908444403616 = 230584300921369376 := by decide
  rw [hb] at h
  norm_num at h ⊢
  exact h

theorem decay_iterate_after_160 (n : ℕ) (hn : 160 ≤ n) :
    decay^[n] 1 = 56294995342131 / 2 ^ 48 := by
  rw [decay_iterate_bits, decayBits_after_160 n hn]
  norm_num

theorem decay_iterate_ge (n : ℕ) : 56294995342131 / 2 ^ 48 ≤ decay^[n] 1 := by
  rw [decay_iterate_bits]
  have h : ((230584300921368576 : ℕ) : ℚ) ≤ ((decayBits^[n] (2 ^ 60) : ℕ) : ℚ) := by
    exact_mod_cast decayBits_ge n
  rw [le_div_iff (by positivity)]
  push_cast at h
  norm_num at h ⊢
  linarith

theorem decay_iterate_step (n : ℕ) : decay (decay^[n] 1) ≤ decay^[n] 1 := by
  rw [decay_iterate_bits, decay_bits _ (decayBits_iterate_le n)]
  have h : ((decayBits (decayBits^[n] (2 ^ 60)) : ℕ) : ℚ) ≤ ((decayBits^[n] (2 ^ 60) : ℕ) : ℚ) := by
    exact_mod_cast decayBits_le _
  exact div_le_div_of_nonneg_right h (by positivity)

theorem blockedProbe_reached : step Lizard.new 0 (1 / 2) = some blockedProbe := by
  have hc : chooseAction Lizard.new 0 (1 / 2) = some 2 := by
    norm_num [chooseAction, Lizard.new]
  have hd : dispatch Lizard.new 2 = some (MoveResult.retUndefined,
      { Lizard.new with
        y := 1
        cumulativeReward := -1
        QTable := setIdx Lizard.new.QTable 6 (QRow.arr [0, 0, -7 / 10, 0]) }) := by
    simp [Lizard.new, dispatch, up, rewardAt, getIdx, REWARDS, updateQTable,
      spreadMax, mathMax, setIdx, LEARNING_RATE]
    norm_num
  rw [step, hc, Option.some_bind, hd, Option.map_some', countAndDecay_eq]
  have h1 : Lizard.new.explorationRate = 1 := rfl
  simp only [h1, decay_one]
  rfl

/-! ## The claims -/

/-- C1 (Q-update rule).  In a well-formed state, for every action index `a` in
`0..3` whose move stays in the grid, the move method that `step` calls for `a`
runs to its end and leaves `QTable[s][a] = (1 - 0.7) * q + 0.7 * (c' + 0.99 * m)`,
where `s = y * 3 + x` is the index of the old position, `q` the old entry
`QTable[s][a]`, `m` the maximum of the old row of the new position and
`c' = cumulativeReward + REWARDS[yNew][xNew]`. -/
theorem q_update_rule (s : Lizard) (hs : s.WF) (a : Int) (ha0 : 0 ≤ a) (ha3 : a ≤ 3)
    (hin : leavesGrid s a = false) :
    ∃ s' q m r, dispatch s a = some (MoveResult.retUndefined, s') ∧
      entry s.QTable (s.y * 3 + s.x) a = some q ∧
      rowMax s.QTable (s'.y * 3 + s'.x) = some m ∧
      rewardAt s'.y s'.x = some r ∧
      entry s'.QTable (s.y * 3 + s.x) a =
        some ((1 - 7 / 10) * q + 7 / 10 * ((s.cumulativeReward + r) + 99 / 100 * m)) := by
  obtain ⟨dx, dy, hd, hx0, hx2, hy0, hy2⟩ := leavesGrid_false ha0 ha3 hin
  obtain ⟨r, vs, q, ws, m, hr, hvs, -, hq, hws, hm, hdis⟩ :=
    dispatch_accepted s hs a dx dy ha0 ha3 hd hx0 hx2 hy0 hy2
  refine ⟨_, q, m, r, hdis, ?_, ?_, hr, ?_⟩
  · simp [entry, hvs, hq]
  · simp [rowMax, movedState, hws, spreadMax, hm]
  · have h := entry_setIdx s.QTable (s.y * 3 + s.x) a vs q
      ((1 - LEARNING_RATE) * q +
        LEARNING_RATE * (s.cumulativeReward + r + s.discountRate * m)) hvs hq
    simpa [movedState, LEARNING_RATE, hs.discount] using h

/-- Witness of C1: the rule at the constructor's state and the action `UP`. -/
theorem q_update_rule_witness :
    ∃ s' q m r, dispatch Lizard.new 2 = some (MoveResult.retUndefined, s') ∧
      entry Lizard.new.QTable (Lizard.new.y * 3 + Lizard.new.x) 2 = some q ∧
      rowMax Lizard.new.QTable (s'.y * 3 + s'.x) = some m ∧
      rewardAt s'.y s'.x = some r ∧
      entry s'.QTable (Lizard.new.y * 3 + Lizard.new.x) 2 =
        some ((1 - 7 / 10) * q + 7 / 10 * ((Lizard.new.cumulativeReward + r) + 99 / 100 * m)) :=
  q_update_rule Lizard.new new_wf 2 (by decide) (by decide) (by decide)

/-- C2 (episode reset), as the code behaves: `resetPosition` sets the position
to `(0, 2)` and `cumulativeReward` to `0`, keeps `QTable` and `explorationRate`,
and writes its `0` to the property `steps`, so that `stepCount` keeps its value;
from the state with `stepCount = 100` the result still has `stepCount = 100`. -/
theorem resetPosition_keeps_stepCount :
    (∀ s : Lizard,
      (resetPosition s).x = 0 ∧ (resetPosition s).y = 2 ∧
      (resetPosition s).cumulativeReward = 0 ∧
      (resetPosition s).QTable = s.QTable ∧
      (resetPosition s).explorationRate = s.explorationRate ∧
      (resetPosition s).steps = some 0 ∧
      (resetPosition s).stepCount = s.stepCount) ∧
    (resetPosition { Lizard.new with stepCount := 100 }).stepCount = 100 :=
  ⟨fun _ => ⟨rfl, rfl, rfl, rfl, rfl, rfl, rfl⟩, rfl⟩

/-- C5 (boundary-blocked moves are no-ops).  `left()` at `x = 0`, `right()` at
`x = 2`, `up()` at `y = 0` and `down()` at `y = 2` return `false` and leave the
whole state, so `x`, `y`, `cumulativeReward` and `QTable`, as it was. -/
theorem blocked_moves_are_noops (s : Lizard) :
    (s.x = 0 → left s = some (MoveResult.retFalse, s)) ∧
    (s.x = 2 → right s = some (MoveResult.retFalse, s)) ∧
    (s.y = 0 → up s = some (MoveResult.retFalse, s)) ∧
    (s.y = 2 → down s = some (MoveResult.retFalse, s)) := by
  refine ⟨fun h => ?_, fun h => ?_, fun h => ?_, fun h => ?_⟩
  · simp [left, h]
  · simp [right, h]
  · simp [up, h]
  · simp [down, h]

/-- Witness of C5: `left` and `down` at `(0, 2)`, `right` and `up` at `(2, 0)`. -/
theorem blocked_moves_are_noops_witness :
    left Lizard.new = some (MoveResult.retFalse, Lizard.new) ∧
    down Lizard.new = some (MoveResult.retFalse, Lizard.new) ∧
    right { Lizard.new with x := 2, y := 0 } =
      some (MoveResult.retFalse, { Lizard.new with x := 2, y := 0 }) ∧
    up { Lizard.new with x := 2, y := 0 } =
      some (MoveResult.retFalse, { Lizard.new with x := 2, y := 0 }) :=
  ⟨(blocked_moves_are_noops Lizard.new).1 rfl,
   (blocked_moves_are_noops Lizard.new).2.2.2 rfl,
   (blocked_moves_are_noops { Lizard.new with x := 2, y := 0 }).2.1 rfl,
   (blocked_moves_are_noops { Lizard.new with x := 2, y := 0 }).2.2.1 rfl⟩

/-- C6 (accepted moves follow the delta and reward tables).  In a well-formed
state a move whose target stays in the grid runs to its end, changes the position
by `(-1, 0)` for `left`, `(+1, 0)` for `right`, `(0, -1)` for `up` and `(0, +1)`
for `down`, and adds `REWARDS[yNew][xNew]` to `cumulativeReward`; `REWARDS` is the
table `[[1,-1,-1],[-1,-10,-1],[-1,-1,10]]`, so arriving at `(1, 1)` adds `-10`,
at `(2, 2)` adds `10` and at `(x, y) = (2, 0)` adds `-1`. -/
theorem accepted_moves_follow_tables (s : Lizard) (hs : s.WF) :
    (s.x ≠ 0 → ∃ s' r, left s = some (MoveResult.retUndefined, s') ∧
      s'.x = s.x - 1 ∧ s'.y = s.y ∧ getIdx REWARDS s'.y >>= (getIdx · s'.x) = some r ∧
      s'.cumulativeReward = s.cumulativeReward + r) ∧
    (s.x ≠ 2 → ∃ s' r, right s = some (MoveResult.retUndefined, s') ∧
      s'.x = s.x + 1 ∧ s'.y = s.y ∧ getIdx REWARDS s'.y >>= (getIdx · s'.x) = some r ∧
      s'.cumulativeReward = s.cumulativeReward + r) ∧
    (s.y ≠ 0 → ∃ s' r, up s = some (MoveResult.retUndefined, s') ∧
      s'.x = s.x ∧ s'.y = s.y - 1 ∧ getIdx REWARDS s'.y >>= (getIdx · s'.x) = some r ∧
      s'.cumulativeReward = s.cumulativeReward + r) ∧
    (s.y ≠ 2 → ∃ s' r, down s = some (MoveResult.retUndefined, s') ∧
      s'.x = s.x ∧ s'.y = s.y + 1 ∧ getIdx REWARDS s'.y >>= (getIdx · s'.x) = some r ∧
      s'.cumulativeReward = s.cumulativeReward + r) ∧
    REWARDS = [[1, -1, -1], [-1, -10, -1], [-1, -1, 10]] ∧
    rewardAt 1 1 = some (-10) ∧ rewardAt 2 2 = some 10 ∧ rewardAt 0 2 = some (-1) := by
  have hx_lo := hs.x_lo
  have hx_hi := hs.x_hi
  have hy_lo := hs.y_lo
  have hy_hi := hs.y_hi
  refine ⟨fun h => ?_, fun h => ?_, fun h => ?_, fun h => ?_, rfl, ?_, ?_, ?_⟩
  · obtain ⟨s', r, hd, h1, h2, h3, h4⟩ := dispatch_moves s hs 0 (-1) 0 (by decide) (by decide)
      (by simp [getIdx, ACTION_DELTAS]) (by omega) (by omega) (by omega) (by omega)
    exact ⟨s', r, by simpa [dispatch] using hd, by omega, by omega, h3, h4⟩
  · obtain ⟨s', r, hd, h1, h2, h3, h4⟩ := dispatch_moves s hs 1 1 0 (by decide) (by decide)
      (by simp [getIdx, ACTION_DELTAS]) (by omega) (by omega) (by omega) (by omega)
    exact ⟨s', r, by simpa [dispatch] using hd, by omega, by omega, h3, h4⟩
  · obtain ⟨s', r, hd, h1, h2, h3, h4⟩ := dispatch_moves s hs 2 0 (-1) (by decide) (by decide)
      (by simp [getIdx, ACTION_DELTAS]) (by omega) (by omega) (by omega) (by omega)
    exact ⟨s', r, by simpa [dispatch] using hd, by omega, by omega, h3, h4⟩
  · obtain ⟨s', r, hd, h1, h2, h3, h4⟩ := dispatch_moves s hs 3 0 1 (by decide) (by decide)
      (by simp [getIdx, ACTION_DELTAS]) (by omega) (by omega) (by omega) (by omega)
    exact ⟨s', r, by simpa [dispatch] using hd, by omega, by omega, h3, h4⟩
  · simp [rewardAt, getIdx, REWARDS]
  · simp [rewardAt, getIdx, REWARDS]
  · simp [rewardAt, getIdx, REWARDS]

/-- Witness of C6: from `(1, 0)` the move `down` arrives at `(1, 1)` and adds
`-10`; from `(1, 2)` the move `right` arrives at `(2, 2)` and adds `10`. -/
theorem accepted_moves_follow_tables_witness :
    (∃ s' r, down { Lizard.new with x := 1, y := 0 } = some (MoveResult.retUndefined, s') ∧
      s'.x = 1 ∧ s'.y = 0 + 1 ∧ getIdx REWARDS s'.y >>= (getIdx · s'.x) = some r ∧
      s'.cumulativeReward = 0 + r) ∧
    (∃ s' r, right { Lizard.new with x := 1, y := 2 } = some (MoveResult.retUndefined, s') ∧
      s'.x = 1 + 1 ∧ s'.y = 2 ∧ getIdx REWARDS s'.y >>= (getIdx · s'.x) = some r ∧
      s'.cumulativeReward = 0 + r) :=
  ⟨(accepted_moves_follow_tables { Lizard.new with x := 1, y := 0 }
      ⟨by decide, by decide, by decide, by decide, rfl, new_wf.table⟩).2.2.2.1 (by decide),
   (accepted_moves_follow_tables { Lizard.new with x := 1, y := 2 }
      ⟨by decide, by decide, by decide, by decide, rfl, new_wf.table⟩).2.1 (by decide)⟩

/-- C3 as written is false.  At the probe state (`(0, 1)`, `cumulativeReward = -1`,
all of row 3 zero) the exploring step with draws `0, 0` selects `LEFT`, which
would leave the grid; the claim requires `QTable[3][0]` to become
`0.3 * 0 + 0.7 * (-1 + 0.99 * 0) = -0.7`, but `step` leaves it `0`. -/
theorem blocked_step_learns_refuted :
    ¬ ∀ (s : Lizard) (r1 r2 : ℚ) (a : Int), s.WF → chooseAction s r1 r2 = some a →
      leavesGrid s a = true →
      ∃ s' q m, step s r1 r2 = some s' ∧ s'.x = s.x ∧ s'.y = s.y ∧
        s'.stepCount = s.stepCount + 1 ∧
        entry s.QTable (s.y * 3 + s.x) a = some q ∧
        rowMax s.QTable (s.y * 3 + s.x) = some m ∧
        entry s'.QTable (s.y * 3 + s.x) a =
          some ((1 - 7 / 10) * q + 7 / 10 * (s.cumulativeReward + 99 / 100 * m)) := by
  intro h
  obtain ⟨s', q, m, hstep, -, -, -, hq, hm, he⟩ :=
    h blockedProbe 0 0 0 blockedProbe_wf blockedProbe_choose blockedProbe_leaves
  rw [step_blocked _ blockedProbe_wf 0 0 0 blockedProbe_choose blockedProbe_leaves] at hstep
  have hidx : blockedProbe.y * 3 + blockedProbe.x = 3 := by decide
  rw [hidx] at hq hm he
  rw [blockedProbe_entry] at hq
  rw [blockedProbe_rowMax] at hm
  have hq0 : q = 0 := (Option.some.inj hq).symm
  have hm0 : m = 0 := (Option.some.inj hm).symm
  have hs' : s' = countAndDecay blockedProbe := (Option.some.inj hstep).symm
  subst hq0 hm0 hs'
  rw [countAndDecay_QTable, blockedProbe_entry] at he
  have hc : blockedProbe.cumulativeReward = -1 := rfl
  rw [hc] at he
  have := Option.some.inj he
  norm_num at this

/-- C3, amended.  In a well-formed state, a step whose selected action `a` would
leave the grid returns, leaves the position and the state index `y * 3 + x`
unchanged, increments `stepCount` by one, and does not call the Q-table update:
`QTable` and `cumulativeReward` are unchanged. -/
theorem blocked_step_skips_update (s : Lizard) (hs : s.WF) (r1 r2 : ℚ) (a : Int)
    (hc : chooseAction s r1 r2 = some a) (hb : leavesGrid s a = true) :
    ∃ s', step s r1 r2 = some s' ∧ s'.x = s.x ∧ s'.y = s.y ∧
      s'.y * 3 + s'.x = s.y * 3 + s.x ∧ s'.stepCount = s.stepCount + 1 ∧
      s'.QTable = s.QTable ∧ s'.cumulativeReward = s.cumulativeReward := by
  refine ⟨countAndDecay s, step_blocked s hs r1 r2 a hc hb, ?_, ?_, ?_, ?_, ?_, ?_⟩ <;> simp

/-- Witness of C3, amended: the probe state, draws `0, 0`, action `LEFT`. -/
theorem blocked_step_skips_update_witness :
    ∃ s', step blockedProbe 0 0 = some s' ∧ s'.x = blockedProbe.x ∧ s'.y = blockedProbe.y ∧
      s'.y * 3 + s'.x = blockedProbe.y * 3 + blockedProbe.x ∧
      s'.stepCount = blockedProbe.stepCount + 1 ∧
      s'.QTable = blockedProbe.QTable ∧ s'.cumulativeReward = blockedProbe.cumulativeReward :=
  blocked_step_skips_update blockedProbe blockedProbe_wf 0 0 0 blockedProbe_choose
    blockedProbe_leaves

/-- C4 (greedy-playback boundary penalty), as the code behaves.  After
`resetPosition` on a fresh `Lizard` the greedy action at state `6 = (0, 2)` is
`LEFT`, which would leave the grid.  One playback iteration leaves the position
at `(0, 2)`, but `QTable[6] -= 100` overwrites the whole slot `QTable[6]` with
`NaN`: the slot is no array any more and `QTable[6][0]`, which was `0`, is not
`-100` but undefined, as are the other three entries of the row.  The call of
`display` that ends the iteration then throws a `TypeError` on that slot. -/
theorem showResult_penalty_overwrites_row :
    bestAction (resetPosition Lizard.new) = some 0 ∧
    leavesGrid (resetPosition Lizard.new) 0 = true ∧
    atTerminal (resetPosition Lizard.new) = false ∧
    entry (resetPosition Lizard.new).QTable 6 0 = some 0 ∧
    ∃ s', showResultBody (resetPosition Lizard.new) = some (false, s') ∧
      showResultTick (resetPosition Lizard.new) = Outcome.threw s' ∧ display s' = false ∧
      s'.x = 0 ∧ s'.y = 2 ∧ getIdx s'.QTable 6 = some QRow.nan ∧
      entry s'.QTable 6 0 = none ∧ entry s'.QTable 6 1 = none ∧
      entry s'.QTable 6 2 = none ∧ entry s'.QTable 6 3 = none := by
  have hbest : bestAction (resetPosition Lizard.new) = some 0 := by
    simp [bestAction, resetPosition, Lizard.new, getIdx, greedyIdx, mathMax, indexOf, indexOfFrom]
  have hb : leavesGrid (resetPosition Lizard.new) 0 = true := by decide
  have ht : atTerminal (resetPosition Lizard.new) = false := by decide
  have hwf : (resetPosition Lizard.new).WF :=
    ⟨by decide, by decide, by decide, by decide, rfl, new_wf.table⟩
  refine ⟨hbest, hb, ht, ?_, _, showResultBody_blocked _ hwf ht 0 hbest hb,
    showResultTick_blocked _ hwf ht 0 hbest hb, ?_, rfl, rfl, ?_, ?_, ?_, ?_, ?_⟩ <;>
    simp [resetPosition, Lizard.new, entry, getIdx, setIdx, display, QRow.isArr]

/-- C7 (greedy tie-break).  For every row `[a, b, c, d]` of rationals the
expression `row.indexOf(Math.max(...row))` of `step` and `showResult` returns an
index `i` in `0..3` with `row[i]` equal to the maximum `m` of the row and with
`row[j] ≠ m` for every `j < i`; it is the greedy action of every state whose
current row is `[a, b, c, d]`; and on a row of four equal values it returns
`0` (`LEFT`). -/
theorem greedy_tie_break (a b c d : ℚ) :
    (∃ (m : ℚ) (i : Int), mathMax [a, b, c, d] = some m ∧ m ∈ [a, b, c, d] ∧
      (∀ w ∈ [a, b, c, d], w ≤ m) ∧ greedyIdx [a, b, c, d] = some i ∧ 0 ≤ i ∧ i ≤ 3 ∧
      getIdx [a, b, c, d] i = some m ∧
      (∀ j : Int, 0 ≤ j → j < i → getIdx [a, b, c, d] j ≠ some m) ∧
      ∀ s : Lizard, getIdx s.QTable (s.y * 3 + s.x) = some (QRow.arr [a, b, c, d]) →
        bestAction s = some i) ∧
    (a = b ∧ b = c ∧ c = d → greedyIdx [a, b, c, d] = some 0) := by
  obtain ⟨m, n, hmax, hle, hg, hn, hget, hleast⟩ := greedyIdx_spec [a, b, c, d] (by simp)
  have hmem := (mathMax_spec hmax).1
  have hn4 : n < 4 := by simpa using hn
  refine ⟨⟨m, n, hmax, hmem, hle, hg, by omega, by omega, ?_, ?_, ?_⟩, ?_⟩
  · simpa [getIdx] using hget
  · intro j hj0 hjn
    have hj : j.toNat < n := by omega
    simpa [getIdx, hj0] using hleast j.toNat hj
  · intro s hrow
    simp [bestAction, hrow, hg]
  · rintro ⟨rfl, rfl, rfl⟩
    cases n with
    | zero => simpa using hg
    | succ k =>
      have hm : m = a := by simpa using hmem
      exact absurd (by simp [hm]) (hleast 0 (by omega))

/-- Witness of C7: on the all-zero row of a fresh `Lizard` the greedy index is `0`. -/
theorem greedy_tie_break_witness : greedyIdx [0, 0, 0, 0] = some 0 :=
  (greedy_tie_break 0 0 0 0).2 ⟨rfl, rfl, rfl⟩

/-- C8 as written is false.  The decrement of line 138 is a subtraction of
doubles.  After `160` calls of `step` from a fresh `Lizard` the rate is
`56294995342131 / 2 ^ 48 = 0.1999999999999993`, which is below `0.2` and is not
`max (1 - 160 * 0.005) 0.2 = 0.2`. -/
theorem exploration_rate_falls_below_floor :
    ∃ s, runCalls Lizard.new (List.replicate 160 (Call.step 0 0)) = some s ∧
      s.explorationRate = 56294995342131 / 2 ^ 48 ∧
      s.explorationRate < 2 / 10 ∧
      s.explorationRate ≠ max (1 - 160 * (5 / 1000)) (2 / 10) := by
  obtain ⟨s, hrun, -, he⟩ :=
    runCalls_total Lizard.new new_wf (List.replicate 160 (Call.step 0 0))
  have h1 : Lizard.new.explorationRate = 1 := rfl
  rw [h1, stepCalls_replicate, decay_iterate_after_160 160 (le_refl _)] at he
  refine ⟨s, hrun, he, ?_, ?_⟩
  · rw [he]; norm_num
  · rw [he]; norm_num

/-- C8, amended.  From a fresh `Lizard`, every sequence of calls of `step` (with
any draws) and `resetPosition` returns, and afterwards `explorationRate`, computed
in double precision as the code does, differs from `max (1 - n * 0.005) 0.2` by at
most `10 ^ (-15)`, where `n` is the number of calls of `step`.  The rate is never
below `56294995342131 / 2 ^ 48 = 0.1999999999999993`, a value between `0.195` and
`0.2`; it is exactly this value once `n ≥ 160`; and one more call never increases
it. -/
theorem exploration_rate_trajectory (cs : List Call) :
    ∃ s, runCalls Lizard.new cs = some s ∧
      |s.explorationRate - max (1 - (stepCalls cs : ℚ) * (5 / 1000)) (2 / 10)| ≤ 1 / 10 ^ 15 ∧
      56294995342131 / 2 ^ 48 ≤ s.explorationRate ∧
      (160 ≤ stepCalls cs → s.explorationRate = 56294995342131 / 2 ^ 48) ∧
      ((195 / 1000 : ℚ) < 56294995342131 / 2 ^ 48 ∧ (56294995342131 / 2 ^ 48 : ℚ) < 2 / 10) ∧
      ∀ c : Call, ∃ s2, runCalls Lizard.new (cs ++ [c]) = some s2 ∧
        s2.explorationRate ≤ s.explorationRate := by
  obtain ⟨s, hrun, hwf, he⟩ := runCalls_total Lizard.new new_wf cs
  have h1 : Lizard.new.explorationRate = 1 := rfl
  rw [h1] at he
  refine ⟨s, hrun, ?_, ?_, ?_, ⟨by norm_num, by norm_num⟩, ?_⟩
  · rw [he]; exact decay_iterate_close _
  · rw [he]; exact decay_iterate_ge _
  · intro hn
    rw [he]; exact decay_iterate_after_160 _ hn
  · intro c
    obtain ⟨s2, hrun2, -, he2⟩ := runCalls_total s hwf [c]
    refine ⟨s2, by simp [runCalls_append, hrun, hrun2], ?_⟩
    rw [he2]
    cases c with
    | step r1 r2 =>
      simp only [stepCalls, Function.iterate_succ, Function.iterate_zero, Function.comp_apply,
        id_eq]
      rw [he]
      exact decay_iterate_step _
    | resetPosition => simp [stepCalls]

/-- Witness of C8, amended: after 160 calls of `step` the rate is
`56294995342131 / 2 ^ 48`. -/
theorem exploration_rate_trajectory_witness :
    ∃ s, runCalls Lizard.new (List.replicate 160 (Call.step 0 0)) = some s ∧
      s.explorationRate = 56294995342131 / 2 ^ 48 :=
  (exploration_rate_trajectory (List.replicate 160 (Call.step 0 0))).elim
    fun s h => ⟨s, h.1, h.2.2.2.1 (le_of_eq (stepCalls_replicate 160 0 0).symm)⟩

/-- C9 as written is false.  From the well-formed state whose rate is the double
`0.201` one call of `step` leaves the double `0.196`, which is not
`max (0.201 - 0.005) 0.2 = 0.2` and is below `0.2`; and from the double `0.205`
it leaves `7205759403792793 / 2 ^ 55 = 0.19999999999999998`, also below `0.2`. -/
theorem decay_floor_refuted :
    ({ Lizard.new with explorationRate := 3620894100405879 / 2 ^ 54 } : Lizard).WF ∧
    (2 / 10 : ℚ) ≤ 3620894100405879 / 2 ^ 54 ∧
    (∃ s', step { Lizard.new with explorationRate := 3620894100405879 / 2 ^ 54 } 0 0 = some s' ∧
      s'.explorationRate = 3530822107858469 / 2 ^ 54 ∧
      s'.explorationRate ≠ max (3620894100405879 / 2 ^ 54 - 5 / 1000) (2 / 10) ∧
      s'.explorationRate < 2 / 10) ∧
    (2 / 10 : ℚ) ≤ 7385903388887613 / 2 ^ 55 ∧
    ∃ s', step { Lizard.new with explorationRate := 7385903388887613 / 2 ^ 55 } 0 0 = some s' ∧
      s'.explorationRate = 7205759403792793 / 2 ^ 55 ∧
      s'.explorationRate < 2 / 10 := by
  have hwf : ∀ e : ℚ, ({ Lizard.new with explorationRate := e } : Lizard).WF := fun e =>
    ⟨new_wf.x_lo, new_wf.x_hi, new_wf.y_lo, new_wf.y_hi, rfl, new_wf.table⟩
  obtain ⟨s1, hstep1, -, -, he1⟩ := step_total _ (hwf (3620894100405879 / 2 ^ 54)) 0 0
  obtain ⟨s2, hstep2, -, -, he2⟩ := step_total _ (hwf (7385903388887613 / 2 ^ 55)) 0 0
  have he1' : s1.explorationRate = 3530822107858469 / 2 ^ 54 := he1.trans decay_at_0201
  have he2' : s2.explorationRate = 7205759403792793 / 2 ^ 55 := he2.trans decay_at_0205
  refine ⟨hwf _, by norm_num, ⟨s1, hstep1, he1', ?_, ?_⟩, by norm_num, s2, hstep2, he2', ?_⟩
  · rw [he1']; norm_num
  · rw [he1']; norm_num
  · rw [he2']; norm_num

/-- C9, amended.  In a well-formed state with exploration rate `r`, one call of
`step` returns and leaves the rate `r` if `r` is not above the double `0.2`, and
otherwise the double nearest to `r - 0.005`, with `0.005` the double of line 138.
So the rate is unchanged when `r = 0.2`; whenever `r ≥ 0.2` the new rate is above
`0.1949`, and it is not above `r` when also `r ≤ 1`.  It is not floored at
`0.2`. -/
theorem decay_one_step (s : Lizard) (hs : s.WF) (r1 r2 : ℚ) :
    ∃ s', step s r1 r2 = some s' ∧
      s'.explorationRate =
        (if s.explorationRate > FLOOR_RATE then roundDouble (s.explorationRate - DECREMENT)
         else s.explorationRate) ∧
      (s.explorationRate = 2 / 10 ∨ s.explorationRate = FLOOR_RATE →
        s'.explorationRate = s.explorationRate) ∧
      (2 / 10 ≤ s.explorationRate → 1949 / 10000 < s'.explorationRate) ∧
      (2 / 10 ≤ s.explorationRate → s.explorationRate ≤ 1 →
        s'.explorationRate ≤ s.explorationRate) := by
  obtain ⟨s', hstep, -, -, he⟩ := step_total s hs r1 r2
  refine ⟨s', hstep, by rw [he, decay], ?_, ?_, ?_⟩
  · intro h
    rw [he]
    have hle : s.explorationRate ≤ FLOOR_RATE := by
      rcases h with h | h
      · rw [h]; unfold FLOOR_RATE; norm_num
      · exact le_of_eq h
    have h2 : (2 : ℚ) / 10 ≤ s.explorationRate := by
      rcases h with h | h
      · exact le_of_eq h.symm
      · rw [h]; unfold FLOOR_RATE; norm_num
    exact (decay_bounds _ h2).2.2 hle
  · intro h
    rw [he]; exact (decay_bounds _ h).1
  · intro h h1
    rw [he]; exact (decay_bounds _ h).2.1 h1

/-- Witness of C9, amended: at the rate `0.2` (unchanged) and at the rate `1`
(the new rate is above `0.1949` and not above `1`). -/
theorem decay_one_step_witness :
    (∃ s', step { Lizard.new with explorationRate := 2 / 10 } 0 0 = some s' ∧
      s'.explorationRate = 2 / 10) ∧
    (∃ s', step Lizard.new 0 0 = some s' ∧
      1949 / 10000 < s'.explorationRate ∧ s'.explorationRate ≤ 1) :=
  ⟨(decay_one_step { Lizard.new with explorationRate := 2 / 10 }
      ⟨by decide, by decide, by decide, by decide, rfl, new_wf.table⟩ 0 0).elim
      fun s' h => ⟨s', h.1, h.2.2.1 (Or.inl rfl)⟩,
   (decay_one_step Lizard.new new_wf 0 0).elim
      fun s' h => ⟨s', h.1, h.2.2.2.1 (by norm_num [Lizard.new]),
        h.2.2.2.2 (by norm_num [Lizard.new]) (le_of_eq rfl)⟩⟩

/-- C10 (epsilon-greedy branch selection).  With the two results of
`Math.random()` as inputs `r1`, `r2`: for `r2` in `[0, 1)` the index
`floor(4 * r2)` lies in `0..3`; in a well-formed state, when `r1 ≤ explorationRate`
the step selects `floor(4 * r2)`, and otherwise it selects the greedy action
`bestAction` of the row at `y * 3 + x` (an index in `0..3`); in both cases `step`
returns the state that the move method of the selected index leaves, followed by
the bookkeeping of the step; indices `0, 1, 2, 3` run `left`, `right`, `up`,
`down`. -/
theorem epsilon_greedy_branch (s : Lizard) (hs : s.WF) (r1 r2 : ℚ) :
    (0 ≤ r2 → r2 < 1 → 0 ≤ ⌊4 * r2⌋ ∧ ⌊4 * r2⌋ ≤ 3) ∧
    (r1 ≤ s.explorationRate →
      chooseAction s r1 r2 = some ⌊4 * r2⌋ ∧
      ∃ res s1, dispatch s ⌊4 * r2⌋ = some (res, s1) ∧
        step s r1 r2 = some (countAndDecay s1)) ∧
    (¬ r1 ≤ s.explorationRate →
      ∃ a, bestAction s = some a ∧ 0 ≤ a ∧ a ≤ 3 ∧ chooseAction s r1 r2 = some a ∧
        ∃ res s1, dispatch s a = some (res, s1) ∧ step s r1 r2 = some (countAndDecay s1)) ∧
    dispatch s 0 = left s ∧ dispatch s 1 = right s ∧ dispatch s 2 = up s ∧
    dispatch s 3 = down s := by
  refine ⟨fun h0 h1 => ?_, fun h => ?_, fun h => ?_, ?_, ?_, ?_, ?_⟩
  · constructor
    · exact Int.floor_nonneg.mpr (by linarith)
    · have h4 : ⌊4 * r2⌋ < 4 := Int.floor_lt.mpr (by push_cast; linarith)
      omega
  · have hc : chooseAction s r1 r2 = some ⌊4 * r2⌋ := by
      simp [chooseAction, h, mul_comm]
    obtain ⟨res, s1, hd, -, -, -⟩ := dispatch_total s hs ⌊4 * r2⌋
    refine ⟨hc, res, s1, hd, ?_⟩
    rw [step, hc, Option.some_bind, hd, Option.map_some']
  · obtain ⟨a, ha, ha0, ha3⟩ := bestAction_total s hs
    have hc : chooseAction s r1 r2 = some a := by
      simp [chooseAction, h, ha]
    obtain ⟨res, s1, hd, -, -, -⟩ := dispatch_total s hs a
    refine ⟨a, ha, ha0, ha3, hc, res, s1, hd, ?_⟩
    rw [step, hc, Option.some_bind, hd, Option.map_some']
  · simp [dispatch]
  · simp [dispatch]
  · simp [dispatch]
  · simp [dispatch]

/-- Witness of C10: a fresh `Lizard` (rate `1`) with draws `0, 1/2` explores;
the same state with rate `0.2` and draws `1/2, 1/2` takes the greedy branch. -/
theorem epsilon_greedy_branch_witness :
    (0 ≤ ⌊4 * (1 / 2 : ℚ)⌋ ∧ ⌊4 * (1 / 2 : ℚ)⌋ ≤ 3) ∧
    chooseAction Lizard.new 0 (1 / 2) = some ⌊4 * (1 / 2 : ℚ)⌋ ∧
    ∃ a, bestAction { Lizard.new with explorationRate := 2 / 10 } = some a ∧ 0 ≤ a ∧ a ≤ 3 ∧
      chooseAction { Lizard.new with explorationRate := 2 / 10 } (1 / 2) (1 / 2) = some a :=
  ⟨(epsilon_greedy_branch Lizard.new new_wf 0 (1 / 2)).1 (by norm_num) (by norm_num),
   ((epsilon_greedy_branch Lizard.new new_wf 0 (1 / 2)).2.1 (by norm_num [Lizard.new])).1,
   ((epsilon_greedy_branch { Lizard.new with explorationRate := 2 / 10 }
      ⟨by decide, by decide, by decide, by decide, rfl, new_wf.table⟩ (1 / 2) (1 / 2)).2.2.1
      (by norm_num)).elim fun a h => ⟨a, h.1, h.2.1, h.2.2.1, h.2.2.2.1⟩⟩

/-! ## Terminal cells and the episode guard -/

theorem atTerminal_iff (s : Lizard) :
    atTerminal s = true ↔ (s.x = 1 ∧ s.y = 1) ∨ (s.x = 2 ∧ s.y = 2) := by
  unfold atTerminal TERMINATE_CELLS
  by_cases h1 : (1 : Int) = s.x ∧ (1 : Int) = s.y
  · simp [List.find?, h1.1.symm, h1.2.symm]
  · by_cases h2 : (2 : Int) = s.x ∧ (2 : Int) = s.y
    · simp [List.find?, h2.1.symm, h2.2.symm]
    · have e1 : (decide ((1 : Int) = s.x) && decide ((1 : Int) = s.y)) = false := by
        simpa using h1
      have e2 : (decide ((2 : Int) = s.x) && decide ((2 : Int) = s.y)) = false := by
        simpa using h2
      simp only [List.find?, e1, e2, Option.isSome_none]
      constructor
      · intro h; exact absurd h (by simp)
      · rintro (⟨a, b⟩ | ⟨a, b⟩)
        · exact absurd ⟨a.symm, b.symm⟩ h1
        · exact absurd ⟨a.symm, b.symm⟩ h2

theorem episodeGuard_iff (s : Lizard) :
    episodeGuard s = true ↔ s.stepCount < 100 ∧ atTerminal s = false := by
  simp [episodeGuard, MAX_STEPS]

theorem episodeTick_step (s : Lizard) (r1 r2 : ℚ) (hg : episodeGuard s = true) :
    episodeTick s r1 r2 = (step s r1 r2).map fun s1 => (false, s1) := by
  simp [episodeTick, hg]

theorem episodeTick_finish (s : Lizard) (r1 r2 : ℚ) (hg : episodeGuard s = false) :
    episodeTick s r1 r2 = some (true, resetPosition s) := by
  simp [episodeTick, hg]

theorem startEpisode_finish (s : Lizard) (hg : episodeGuard s = false) (fuel : Nat)
    (draws : Nat → ℚ × ℚ) (k : Nat) :
    startEpisode (fuel + 1) s draws k = some (resetPosition s, k) := by
  simp [startEpisode, episodeTick_finish s _ _ hg]

theorem startEpisode_step (s s1 : Lizard) (hg : episodeGuard s = true) (fuel : Nat)
    (draws : Nat → ℚ × ℚ) (k : Nat) (hstep : step s (draws k).1 (draws k).2 = some s1) :
    startEpisode (fuel + 1) s draws k = startEpisode fuel s1 draws (k + 1) := by
  simp [startEpisode, episodeTick_step s _ _ hg, hstep]

theorem zeroTable_bestAction (s : Lizard) (hx : s.x = 0) (hy : s.y = 2)
    (ht : s.QTable = Lizard.new.QTable) : bestAction s = some 0 := by
  simp [bestAction, hx, hy, ht, Lizard.new, getIdx, greedyIdx, mathMax, indexOf, indexOfFrom]

/-! ## The claims on the policy, the guard and the terminal cells -/

/-- C11 as written is false.  With the all-zero table, position `(0, 2)` and
`explorationRate = 0`, the draws `r1 = 0`, `r2 = 1/2` satisfy
`r1 ≤ explorationRate`: the step explores, selects `UP` (index `2`) and moves the
lizard to `(0, 1)`. -/
theorem zero_rate_explores_at_zero_draw :
    chooseAction { Lizard.new with explorationRate := 0 } 0 (1 / 2) = some 2 ∧
    ∃ s', step { Lizard.new with explorationRate := 0 } 0 (1 / 2) = some s' ∧
      s'.x = 0 ∧ s'.y = 1 := by
  have hc : chooseAction { Lizard.new with explorationRate := 0 } 0 (1 / 2) = some 2 := by
    norm_num [chooseAction, Lizard.new]
  have hd : ∃ t : Lizard, dispatch { Lizard.new with explorationRate := 0 } 2 =
      some (MoveResult.retUndefined, t) ∧ t.x = 0 ∧ t.y = 1 := by
    refine ⟨{ Lizard.new with
          explorationRate := 0
          y := 1
          cumulativeReward := -1
          QTable := setIdx Lizard.new.QTable 6 (QRow.arr [0, 0, -7 / 10, 0]) }, ?_, rfl, rfl⟩
    simp [Lizard.new, dispatch, up, rewardAt, getIdx, REWARDS, updateQTable,
      spreadMax, mathMax, setIdx, LEARNING_RATE]
    norm_num
  obtain ⟨t, hdt, hx, hy⟩ := hd
  have hstep : step { Lizard.new with explorationRate := 0 } 0 (1 / 2) =
      some (countAndDecay t) := by
    rw [step, hc, Option.some_bind, hdt, Option.map_some']
  exact ⟨hc, countAndDecay t, hstep, by simp [hx], by simp [hy]⟩

/-- C11, amended.  With the all-zero table, position `(0, 2)` and
`explorationRate = 0`, for every draw `r1 > 0` and every `r2` the step takes the
exploitation branch and selects `LEFT` (index `0`), which is blocked: the step
returns and the lizard stays at `(0, 2)`. -/
theorem zero_rate_exploits (s : Lizard) (hx : s.x = 0) (hy : s.y = 2)
    (he : s.explorationRate = 0) (ht : s.QTable = Lizard.new.QTable) (r1 r2 : ℚ)
    (h1 : 0 < r1) :
    ¬ r1 ≤ s.explorationRate ∧ bestAction s = some 0 ∧ chooseAction s r1 r2 = some 0 ∧
      ∃ s', step s r1 r2 = some s' ∧ s'.x = 0 ∧ s'.y = 2 := by
  have hb := zeroTable_bestAction s hx hy ht
  have hn : ¬ r1 ≤ s.explorationRate := by rw [he]; exact not_le.mpr h1
  have hc : chooseAction s r1 r2 = some 0 := by simp [chooseAction, hn, hb]
  have hd : dispatch s 0 = some (MoveResult.retFalse, s) := by simp [dispatch, left, hx]
  refine ⟨hn, hb, hc, countAndDecay s, ?_, by simp [hx], by simp [hy]⟩
  rw [step, hc, Option.some_bind, hd, Option.map_some']

/-- Witness of C11, amended: draws `1/2` and `1/4` (the exploring index would be
`RIGHT`). -/
theorem zero_rate_exploits_witness :
    chooseAction { Lizard.new with explorationRate := 0 } (1 / 2) (1 / 4) = some 0 ∧
    ∃ s', step { Lizard.new with explorationRate := 0 } (1 / 2) (1 / 4) = some s' ∧
      s'.x = 0 ∧ s'.y = 2 :=
  (zero_rate_exploits { Lizard.new with explorationRate := 0 } rfl rfl rfl rfl (1 / 2) (1 / 4)
    (by norm_num)).2.2

/-- C13 (episode guard).  On a run of the callback of `startEpisode` in a
well-formed state, a step is executed when the position is no terminal cell and
`stepCount < 100`, and it returns; otherwise no step is executed, the episode
ends and `resetPosition` runs.  The terminal test holds exactly at `(1, 1)` and
`(2, 2)`.  An episode started on a terminal cell or with `stepCount ≥ 100`
executes zero steps and leaves `QTable` and `explorationRate` unchanged. -/
theorem episode_guard (s : Lizard) (hs : s.WF) (r1 r2 : ℚ) :
    (atTerminal s = false ∧ s.stepCount < 100 →
      ∃ s1, step s r1 r2 = some s1 ∧ episodeTick s r1 r2 = some (false, s1)) ∧
    (¬ (atTerminal s = false ∧ s.stepCount < 100) →
      episodeTick s r1 r2 = some (true, resetPosition s)) ∧
    (atTerminal s = true ↔ (s.x = 1 ∧ s.y = 1) ∨ (s.x = 2 ∧ s.y = 2)) ∧
    (atTerminal s = true ∨ 100 ≤ s.stepCount →
      ∀ (fuel : Nat) (draws : Nat → ℚ × ℚ) (k : Nat),
        startEpisode (fuel + 1) s draws k = some (resetPosition s, k) ∧
        (resetPosition s).QTable = s.QTable ∧
        (resetPosition s).explorationRate = s.explorationRate) := by
  refine ⟨fun h => ?_, fun h => ?_, atTerminal_iff s, fun h fuel draws k => ?_⟩
  · obtain ⟨s1, hstep, -, -, -⟩ := step_total s hs r1 r2
    have hg : episodeGuard s = true := (episodeGuard_iff s).mpr ⟨h.2, h.1⟩
    exact ⟨s1, hstep, by rw [episodeTick_step s r1 r2 hg, hstep, Option.map_some']⟩
  · have hg : episodeGuard s = false := by
      cases hgu : episodeGuard s with
      | false => rfl
      | true => exact absurd ((episodeGuard_iff s).mp hgu).symm h
    exact episodeTick_finish s r1 r2 hg
  · have hg : episodeGuard s = false := by
      cases hgu : episodeGuard s with
      | false => rfl
      | true =>
        have h2 := (episodeGuard_iff s).mp hgu
        rcases h with h | h
        · rw [h] at h2; exact absurd h2.2 (by simp)
        · omega
    exact ⟨startEpisode_finish s hg fuel draws k, rfl, rfl⟩

/-- Witness of C13: a fresh `Lizard` executes a step; at `(1, 1)` the episode
ends at once. -/
theorem episode_guard_witness :
    (∃ s1, step Lizard.new 0 0 = some s1 ∧ episodeTick Lizard.new 0 0 = some (false, s1)) ∧
    (∀ (fuel : Nat) (draws : Nat → ℚ × ℚ) (k : Nat),
      startEpisode (fuel + 1) { Lizard.new with x := 1, y := 1 } draws k =
        some (resetPosition { Lizard.new with x := 1, y := 1 }, k) ∧
      (resetPosition { Lizard.new with x := 1, y := 1 }).QTable = Lizard.new.QTable ∧
      (resetPosition { Lizard.new with x := 1, y := 1 }).explorationRate = 1) :=
  ⟨(episode_guard Lizard.new new_wf 0 0).1 ⟨by decide, by decide⟩,
   (episode_guard { Lizard.new with x := 1, y := 1 }
      ⟨by decide, by decide, by decide, by decide, rfl, new_wf.table⟩ 0 0).2.2.2
      (Or.inl (by decide))⟩

/-- C16 (terminal cells are the bird and five-cricket cells).  For every position
on the grid, the termination test of `startEpisode` and `showResult` holds if and
only if `REWARDS[y][x]` is `-10` or `10`, and if and only if `(x, y)` is `(1, 1)`
or `(2, 2)`. -/
theorem terminal_cells_are_bird_and_crickets (s : Lizard) (hs : InGrid s) :
    (atTerminal s = true ↔ rewardAt s.y s.x = some (-10) ∨ rewardAt s.y s.x = some 10) ∧
    (atTerminal s = true ↔ (s.x = 1 ∧ s.y = 1) ∨ (s.x = 2 ∧ s.y = 2)) := by
  obtain ⟨x, y, c, n, g, e, t, st⟩ := s
  obtain ⟨hx0, hx2, hy0, hy2⟩ := hs
  simp only at hx0 hx2 hy0 hy2
  refine ⟨?_, atTerminal_iff _⟩
  rw [atTerminal_iff]
  simp only
  have t2 : Int.toNat 2 = 2 := rfl
  interval_cases x <;> interval_cases y <;> norm_num [rewardAt, getIdx, REWARDS, t2]

/-- Witness of C16: the test holds at `(2, 2)`, where the reward is `10`, and
fails at the start cell `(0, 2)`. -/
theorem terminal_cells_are_bird_and_crickets_witness :
    atTerminal { Lizard.new with x := 2, y := 2 } = true ∧
    ¬ (rewardAt 2 0 = some (-10) ∨ rewardAt 2 0 = some 10) :=
  ⟨(terminal_cells_are_bird_and_crickets { Lizard.new with x := 2, y := 2 }
      ⟨by decide, by decide, by decide, by decide⟩).2.mpr (Or.inr ⟨rfl, rfl⟩),
   fun h => absurd ((terminal_cells_are_bird_and_crickets Lizard.new
      ⟨by decide, by decide, by decide, by decide⟩).1.mpr h) (by decide)⟩

/-! ## The frame of an accepted move -/

theorem getIdx_setIdx_ne {α : Type} (xs : List α) (p i : Int) (v : α) (hp : 0 ≤ p)
    (h : i ≠ p) : getIdx (setIdx xs p v) i = getIdx xs i := by
  unfold getIdx setIdx
  split_ifs with h0
  · have hne : p.toNat ≠ i.toNat := by omega
    exact List.getElem?_set_ne hne
  · rfl

theorem entry_movedState (s : Lizard) (a dx dy : Int) (r : ℚ) (vs : List ℚ) (q m : ℚ)
    (hidx : 0 ≤ s.y * 3 + s.x) (ha : 0 ≤ a)
    (hvs : getIdx s.QTable (s.y * 3 + s.x) = some (QRow.arr vs)) (i j : Int)
    (h : i ≠ s.y * 3 + s.x ∨ j ≠ a) :
    entry (movedState s a dx dy r vs q m).QTable i j = entry s.QTable i j := by
  by_cases hi : i = s.y * 3 + s.x
  · have hj : j ≠ a := by
      rcases h with h | h
      · exact absurd hi h
      · exact h
    subst hi
    have h1 : getIdx (movedState s a dx dy r vs q m).QTable (s.y * 3 + s.x) =
        some (QRow.arr (setIdx vs a ((1 - LEARNING_RATE) * q +
          LEARNING_RATE * (s.cumulativeReward + r + s.discountRate * m)))) := by
      have hlt : (s.y * 3 + s.x).toNat < s.QTable.length := by
        unfold getIdx at hvs
        rw [if_pos hidx] at hvs
        exact (List.getElem?_eq_some.mp hvs).1
      simp [movedState, getIdx, setIdx, hidx, hlt]
    simp only [entry, h1, hvs]
    exact getIdx_setIdx_ne vs a j _ ha hj
  · simp only [entry, movedState]
    rw [getIdx_setIdx_ne _ _ _ _ hidx hi]

theorem getIdx_movedState (s : Lizard) (a dx dy : Int) (r : ℚ) (vs : List ℚ) (q m : ℚ)
    (hidx : 0 ≤ s.y * 3 + s.x) (i : Int) (h : i ≠ s.y * 3 + s.x) :
    getIdx (movedState s a dx dy r vs q m).QTable i = getIdx s.QTable i := by
  simp only [movedState]
  exact getIdx_setIdx_ne _ _ _ _ hidx h

theorem dispatch_frame (s : Lizard) (hs : s.WF) (a : Int) :
    ∃ res s', dispatch s a = some (res, s') ∧ s'.WF ∧
      ∀ i : Int, i ≠ s.y * 3 + s.x → getIdx s'.QTable i = getIdx s.QTable i := by
  have hidx : 0 ≤ s.y * 3 + s.x := by have := hs.x_lo; have := hs.y_lo; omega
  have key : ∀ b : Int, 0 ≤ b → b ≤ 3 → ∃ res s', dispatch s b = some (res, s') ∧ s'.WF ∧
      ∀ i : Int, i ≠ s.y * 3 + s.x → getIdx s'.QTable i = getIdx s.QTable i := by
    intro b hb0 hb3
    cases hlg : leavesGrid s b with
    | true => exact ⟨_, _, dispatch_blocked s hs b hlg, hs, fun _ _ => rfl⟩
    | false =>
      obtain ⟨dx, dy, hd, hx0, hx2, hy0, hy2⟩ := leavesGrid_false hb0 hb3 hlg
      obtain ⟨r, vs, q, ws, m, -, -, hvs4, -, -, -, hdis⟩ :=
        dispatch_accepted s hs b dx dy hb0 hb3 hd hx0 hx2 hy0 hy2
      exact ⟨_, _, hdis,
        ⟨hx0, hx2, hy0, hy2, hs.discount, isTable_setIdx hs.table _ vs hvs4 _ _⟩,
        fun i hi => getIdx_movedState s b dx dy r vs q m hidx i hi⟩
  by_cases h0 : a = 0
  · subst h0; exact key 0 (by decide) (by decide)
  by_cases h1 : a = 1
  · subst h1; exact key 1 (by decide) (by decide)
  by_cases h2 : a = 2
  · subst h2; exact key 2 (by decide) (by decide)
  have h3 : dispatch s a = dispatch s 3 := by simp [dispatch, h0, h1, h2]
  rw [h3]
  exact key 3 (by decide) (by decide)

theorem step_frame (s : Lizard) (hs : s.WF) (r1 r2 : ℚ) (s1 : Lizard)
    (hstep : step s r1 r2 = some s1) (i : Int) (hi : i ≠ s.y * 3 + s.x) :
    getIdx s1.QTable i = getIdx s.QTable i := by
  obtain ⟨a, ha⟩ := chooseAction_total s hs r1 r2
  obtain ⟨res, s', hd, -, hf⟩ := dispatch_frame s hs a
  rw [step, ha, Option.some_bind, hd, Option.map_some'] at hstep
  have e : s1 = countAndDecay s' := (Option.some.inj hstep).symm
  rw [e, countAndDecay_QTable]
  exact hf i hi

/-- C17 (frame of the Q-update).  In a well-formed state, an accepted move with
action `a` from the state index `s = y * 3 + x` returns and changes at most the
entry `QTable[s][a]`: every other entry `QTable[i][j]` reads as before and the
table keeps its 9×4 shape; `stepCount` and `explorationRate` are unchanged; and
the row index that `left`, `right`, `up`, `down` pass to `updateQTable`, computed
from the new coordinates, equals `s`. -/
theorem q_update_frame (s : Lizard) (hs : s.WF) (a : Int) (ha0 : 0 ≤ a) (ha3 : a ≤ 3)
    (hin : leavesGrid s a = false) :
    ∃ s', dispatch s a = some (MoveResult.retUndefined, s') ∧
      (∀ i j : Int, i ≠ s.y * 3 + s.x ∨ j ≠ a → entry s'.QTable i j = entry s.QTable i j) ∧
      IsTable s'.QTable ∧
      s'.stepCount = s.stepCount ∧ s'.explorationRate = s.explorationRate ∧
      (a = 0 → s'.y * 3 + s'.x + 1 = s.y * 3 + s.x) ∧
      (a = 1 → s'.y * 3 + s'.x - 1 = s.y * 3 + s.x) ∧
      (a = 2 → (s'.y + 1) * 3 + s'.x = s.y * 3 + s.x) ∧
      (a = 3 → (s'.y - 1) * 3 + s'.x = s.y * 3 + s.x) := by
  have hidx : 0 ≤ s.y * 3 + s.x := by have := hs.x_lo; have := hs.y_lo; omega
  obtain ⟨dx, dy, hd, hx0, hx2, hy0, hy2⟩ := leavesGrid_false ha0 ha3 hin
  obtain ⟨r, vs, q, ws, m, -, hvs, hvs4, -, -, -, hdis⟩ :=
    dispatch_accepted s hs a dx dy ha0 ha3 hd hx0 hx2 hy0 hy2
  refine ⟨_, hdis, fun i j h => entry_movedState s a dx dy r vs q m hidx ha0 hvs i j h,
    isTable_setIdx hs.table _ vs hvs4 _ _, rfl, rfl, ?_, ?_, ?_, ?_⟩
  all_goals
    intro h
    subst h
    simp [getIdx, ACTION_DELTAS] at hd
    obtain ⟨rfl, rfl⟩ := hd
    simp only [movedState]
    ring

/-- Witness of C17: the move `UP` of a fresh `Lizard`. -/
theorem q_update_frame_witness :
    ∃ s', dispatch Lizard.new 2 = some (MoveResult.retUndefined, s') ∧
      (∀ i j : Int, i ≠ 6 ∨ j ≠ 2 → entry s'.QTable i j = entry Lizard.new.QTable i j) ∧
      s'.stepCount = 0 ∧ s'.explorationRate = 1 ∧ (s'.y + 1) * 3 + s'.x = 6 :=
  (q_update_frame Lizard.new new_wf 2 (by decide) (by decide) (by decide)).elim
    fun s' h => ⟨s', h.1, h.2.1, h.2.2.2.1, h.2.2.2.2.1, h.2.2.2.2.2.2.2.1 rfl⟩

/-! ## Episodes and the training run -/

theorem step_stepCount (s : Lizard) (hs : s.WF) (r1 r2 : ℚ) (s1 : Lizard)
    (hstep : step s r1 r2 = some s1) : s1.WF ∧ s1.stepCount = s.stepCount + 1 := by
  obtain ⟨s', h1, h2, h3, -⟩ := step_total s hs r1 r2
  rw [hstep] at h1
  have e : s1 = s' := Option.some.inj h1
  subst e
  exact ⟨h2, h3⟩

theorem startEpisode_inv (P : Lizard → Prop) (hP : ∀ s, P s → s.WF)
    (hstep : ∀ s r1 r2 s1, P s → episodeGuard s = true → step s r1 r2 = some s1 → P s1)
    (hreset : ∀ s, P s → P (resetPosition s)) (draws : Nat → ℚ × ℚ) :
    ∀ (n fuel : Nat) (s : Lizard) (k : Nat), P s → 100 ≤ s.stepCount + n → n + 1 ≤ fuel →
      ∃ s' k', startEpisode fuel s draws k = some (s', k') ∧ P s' ∧ k ≤ k' ∧
        s'.stepCount = s.stepCount + (k' - k) ∧ (s.stepCount ≤ 100 → s'.stepCount ≤ 100) := by
  intro n
  induction n with
  | zero =>
    intro fuel s k hp hn hf
    obtain ⟨f, rfl⟩ : ∃ f, fuel = f + 1 := ⟨fuel - 1, by omega⟩
    have hg : episodeGuard s = false := by
      cases hgu : episodeGuard s with
      | false => rfl
      | true => have := ((episodeGuard_iff s).mp hgu).1; omega
    exact ⟨_, k, startEpisode_finish s hg f draws k, hreset s hp, le_refl k, by
      simp [resetPosition], fun h => h⟩
  | succ n ih =>
    intro fuel s k hp hn hf
    obtain ⟨f, rfl⟩ : ∃ f, fuel = f + 1 := ⟨fuel - 1, by omega⟩
    cases hgu : episodeGuard s with
    | false =>
      exact ⟨_, k, startEpisode_finish s hgu f draws k, hreset s hp, le_refl k, by
        simp [resetPosition], fun h => h⟩
    | true =>
      obtain ⟨s1, hs1, -, -, -⟩ := step_total s (hP s hp) (draws k).1 (draws k).2
      have hc := (step_stepCount s (hP s hp) _ _ s1 hs1).2
      have hlt := ((episodeGuard_iff s).mp hgu).1
      obtain ⟨s', k', hrun, hp', hk, hcount, hle⟩ :=
        ih f s1 (k + 1) (hstep s _ _ s1 hp hgu hs1) (by omega) (by omega)
      refine ⟨s', k', ?_, hp', by omega, by omega, fun _ => hle (by omega)⟩
      rw [startEpisode_step s s1 hgu f draws k hs1]
      exact hrun

theorem runEpisodes_inv (P : Lizard → Prop) (hP : ∀ s, P s → s.WF)
    (hstep : ∀ s r1 r2 s1, P s → episodeGuard s = true → step s r1 r2 = some s1 → P s1)
    (hreset : ∀ s, P s → P (resetPosition s)) (draws : Nat → ℚ × ℚ) (fuel : Nat)
    (hf : 101 ≤ fuel) :
    ∀ (m : Nat) (s : Lizard) (k : Nat), P s → s.stepCount ≤ 100 →
      ∃ s' k', runEpisodes m fuel s draws k = some (s', k') ∧ P s' ∧ k ≤ k' ∧
        s'.stepCount = s.stepCount + (k' - k) ∧ s'.stepCount ≤ 100 := by
  intro m
  induction m with
  | zero =>
    intro s k hp hle
    exact ⟨s, k, rfl, hp, le_refl k, by simp, hle⟩
  | succ m ih =>
    intro s k hp hle
    obtain ⟨s1, k1, hrun1, hp1, hk1, hc1, hle1⟩ :=
      startEpisode_inv P hP hstep hreset draws 100 fuel s k hp (by omega) (by omega)
    obtain ⟨s2, k2, hrun2, hp2, hk2, hc2, hle2⟩ := ih s1 k1 hp1 (hle1 hle)
    refine ⟨s2, k2, ?_, hp2, by omega, by omega, hle2⟩
    simp [runEpisodes, hrun1, hrun2]

theorem stepsFrom_succ (n : Nat) (s s1 : Lizard) (draws : Nat → ℚ × ℚ) (k : Nat)
    (hstep : step s (draws k).1 (draws k).2 = some s1) :
    stepsFrom (n + 1) s draws k = stepsFrom n s1 draws (k + 1) := by
  simp [stepsFrom, hstep]

theorem startEpisode_budget (draws : Nat → ℚ × ℚ) :
    ∀ (n fuel : Nat) (s : Lizard) (k : Nat), s.WF → s.stepCount + n = 100 → n + 1 ≤ fuel →
      (∀ j, j < n → ∀ sj, stepsFrom j s draws k = some sj → atTerminal sj = false) →
      ∃ st, stepsFrom n s draws k = some st ∧ st.stepCount = 100 ∧
        startEpisode fuel s draws k = some (resetPosition st, k + n) := by
  intro n
  induction n with
  | zero =>
    intro fuel s k hs hn hf _
    obtain ⟨f, rfl⟩ : ∃ f, fuel = f + 1 := ⟨fuel - 1, by omega⟩
    have hg : episodeGuard s = false := by
      cases hgu : episodeGuard s with
      | false => rfl
      | true => have := ((episodeGuard_iff s).mp hgu).1; omega
    exact ⟨s, rfl, by omega, startEpisode_finish s hg f draws k⟩
  | succ n ih =>
    intro fuel s k hs hn hf hfree
    obtain ⟨f, rfl⟩ : ∃ f, fuel = f + 1 := ⟨fuel - 1, by omega⟩
    have hg : episodeGuard s = true :=
      (episodeGuard_iff s).mpr ⟨by omega, hfree 0 (by omega) s rfl⟩
    obtain ⟨s1, hs1, -, -, -⟩ := step_total s hs (draws k).1 (draws k).2
    obtain ⟨hwf1, hc1⟩ := step_stepCount s hs _ _ s1 hs1
    obtain ⟨st, hst, hcount, hrun⟩ := ih f s1 (k + 1) hwf1 (by omega) (by omega)
      (fun j hj sj hsj => hfree (j + 1) (by omega) sj (by
        rw [stepsFrom_succ j s s1 draws k hs1]; exact hsj))
    refine ⟨st, ?_, hcount, ?_⟩
    · rw [stepsFrom_succ n s s1 draws k hs1]; exact hst
    · rw [startEpisode_step s s1 hg f draws k hs1, hrun, Nat.add_assoc, Nat.add_comm 1 n]

theorem not_atTerminal_of_x_zero (s : Lizard) (hx : s.x = 0) : atTerminal s = false := by
  cases h : atTerminal s with
  | false => rfl
  | true =>
    rcases (atTerminal_iff s).mp h with ⟨h1, -⟩ | ⟨h1, -⟩ <;> omega

theorem step_zero_draws_stays (s : Lizard) (hx : s.x = 0) (he : 0 ≤ s.explorationRate) :
    step s 0 0 = some (countAndDecay s) := by
  have hc : chooseAction s 0 0 = some 0 := by simp [chooseAction, he]
  have hd : dispatch s 0 = some (MoveResult.retFalse, s) := by simp [dispatch, left, hx]
  rw [step, hc, Option.some_bind, hd, Option.map_some']

theorem stepsFrom_zero_draws_stay :
    ∀ (j : Nat) (s : Lizard) (k : Nat) (sj : Lizard), s.x = 0 → 0 ≤ s.explorationRate →
      stepsFrom j s (fun _ => (0, 0)) k = some sj → sj.x = 0 := by
  intro j
  induction j with
  | zero =>
    intro s k sj hx _ h
    have e : s = sj := Option.some.inj h
    rw [← e]; exact hx
  | succ j ih =>
    intro s k sj hx he h
    have hstep := step_zero_draws_stays s hx he
    rw [stepsFrom_succ j s (countAndDecay s) (fun _ => (0, 0)) k hstep] at h
    exact ih (countAndDecay s) (k + 1) sj (by simp [hx])
      (by rw [countAndDecay_explorationRate]; exact decay_nonneg _ he) h

/-! ## The claims on the step budget -/

/-- C12 (step budget).  In a well-formed state every call of `step` returns and
increases `stepCount` by exactly `1`.  An episode started with `stepCount = 0`
in which the state before each of the first `100` steps is on no terminal cell
executes exactly `MAX_STEPS = 100` steps and then ends by the step limit: the
callback finds `stepCount = 100`, its guard fails, and the promise resolves. -/
theorem step_budget (s : Lizard) (hs : s.WF) :
    (∀ r1 r2 : ℚ, ∃ s', step s r1 r2 = some s' ∧ s'.stepCount = s.stepCount + 1) ∧
    (s.stepCount = 0 → ∀ (draws : Nat → ℚ × ℚ) (k fuel : Nat), MAX_STEPS + 1 ≤ fuel →
      (∀ j, j < MAX_STEPS → ∀ sj, stepsFrom j s draws k = some sj → atTerminal sj = false) →
      ∃ st, stepsFrom MAX_STEPS s draws k = some st ∧ st.stepCount = MAX_STEPS ∧
        episodeGuard st = false ∧
        startEpisode fuel s draws k = some (resetPosition st, k + MAX_STEPS)) := by
  refine ⟨fun r1 r2 => ?_, fun h0 draws k fuel hf hfree => ?_⟩
  · obtain ⟨s', h1, -, h3, -⟩ := step_total s hs r1 r2
    exact ⟨s', h1, h3⟩
  · obtain ⟨st, hst, hcount, hrun⟩ :=
      startEpisode_budget draws 100 fuel s k hs (by omega) hf hfree
    refine ⟨st, hst, hcount, ?_, hrun⟩
    cases hgu : episodeGuard st with
    | false => rfl
    | true => have := ((episodeGuard_iff st).mp hgu).1; omega

/-- Witness of C12: a fresh `Lizard` whose every step draws `0, 0` explores `LEFT`
at `x = 0`, never moves, and its episode executes exactly `100` steps. -/
theorem step_budget_witness :
    ∃ st, stepsFrom MAX_STEPS Lizard.new (fun _ => (0, 0)) 0 = some st ∧
      st.stepCount = MAX_STEPS ∧ episodeGuard st = false ∧
      startEpisode 101 Lizard.new (fun _ => (0, 0)) 0 =
        some (resetPosition st, 0 + MAX_STEPS) :=
  (step_budget Lizard.new new_wf).2 rfl (fun _ => (0, 0)) 0 101 (le_refl 101)
    (fun j _ sj hsj => not_atTerminal_of_x_zero sj
      (stepsFrom_zero_draws_stay j Lizard.new 0 sj rfl (by norm_num [Lizard.new]) hsj))

/-- C19 (the step budget is shared by the whole training run).  For every
sequence of draws, `startTraining` on a fresh `Lizard` returns after `100`
episodes having executed `n ≤ 100` calls of `step` in total, with
`stepCount = n`: `resetPosition` keeps `stepCount`, `step` only increases it,
and from a state with `stepCount ≥ 100` an episode executes zero steps, leaves
`QTable` unchanged and leaves `stepCount ≥ 100`. -/
theorem shared_step_budget (draws : Nat → ℚ × ℚ) (fuel : Nat) (hf : MAX_STEPS + 1 ≤ fuel) :
    (∃ s n, startTraining fuel draws = some (s, n) ∧ n ≤ 100 ∧ s.stepCount = n) ∧
    (∀ s : Lizard, (resetPosition s).stepCount = s.stepCount) ∧
    (∀ s : Lizard, s.WF → ∀ (r1 r2 : ℚ) (s1 : Lizard), step s r1 r2 = some s1 →
      s1.stepCount = s.stepCount + 1) ∧
    (∀ s : Lizard, 100 ≤ s.stepCount → ∀ k : Nat,
      startEpisode fuel s draws k = some (resetPosition s, k) ∧
      (resetPosition s).QTable = s.QTable ∧ 100 ≤ (resetPosition s).stepCount) := by
  have hf' : 101 ≤ fuel := hf
  refine ⟨?_, fun _ => rfl, fun s hs r1 r2 s1 h => (step_stepCount s hs r1 r2 s1 h).2,
    fun s h k => ?_⟩
  · obtain ⟨s, n, hrun, -, -, hcount, hle⟩ :=
      runEpisodes_inv Lizard.WF (fun _ h => h)
        (fun s r1 r2 s1 hs _ h => (step_stepCount s hs r1 r2 s1 h).1)
        (fun _ h => resetPosition_wf h) draws fuel hf' EPISODES Lizard.new 0 new_wf
        (by decide)
    have h0 : Lizard.new.stepCount = 0 := rfl
    exact ⟨s, n, hrun, by omega, by omega⟩
  · obtain ⟨f, rfl⟩ : ∃ f, fuel = f + 1 := ⟨fuel - 1, by omega⟩
    have hg : episodeGuard s = false := by
      cases hgu : episodeGuard s with
      | false => rfl
      | true => have := ((episodeGuard_iff s).mp hgu).1; omega
    exact ⟨startEpisode_finish s hg f draws k, rfl, h⟩

/-- Witness of C19: the training run whose every step draws `0, 0`. -/
theorem shared_step_budget_witness :
    ∃ s n, startTraining 101 (fun _ => (0, 0)) = some (s, n) ∧ n ≤ 100 ∧ s.stepCount = n :=
  (shared_step_budget (fun _ => (0, 0)) 101 (le_refl 101)).1

/-! ## The rows of the terminal cells -/

theorem guarded_step_rows (s : Lizard) (r1 r2 : ℚ) (s1 : Lizard)
    (hp : s.WF ∧ TerminalRowsZero s) (hg : episodeGuard s = true)
    (hstep : step s r1 r2 = some s1) : s1.WF ∧ TerminalRowsZero s1 := by
  obtain ⟨hs, h4, h8⟩ := hp
  have hnt := ((episodeGuard_iff s).mp hg).2
  have hne : ¬ ((s.x = 1 ∧ s.y = 1) ∨ (s.x = 2 ∧ s.y = 2)) := by
    intro h
    rw [(atTerminal_iff s).mpr h] at hnt
    exact absurd hnt (by simp)
  have hx0 := hs.x_lo
  have hx2 := hs.x_hi
  have hy0 := hs.y_lo
  have hy2 := hs.y_hi
  refine ⟨(step_stepCount s hs r1 r2 s1 hstep).1, ?_, ?_⟩
  · rw [step_frame s hs r1 r2 s1 hstep 4 (by omega)]; exact h4
  · rw [step_frame s hs r1 r2 s1 hstep 8 (by omega)]; exact h8

theorem new_rows : Lizard.new.WF ∧ TerminalRowsZero Lizard.new :=
  ⟨new_wf, by simp [Lizard.new, getIdx], by simp [Lizard.new, getIdx]⟩

theorem runTicks_inv (P : Lizard → Prop) (hP : ∀ s, P s → s.WF)
    (hstep : ∀ s r1 r2 s1, P s → episodeGuard s = true → step s r1 r2 = some s1 → P s1)
    (hreset : ∀ s, P s → P (resetPosition s)) (draws : Nat → ℚ × ℚ) :
    ∀ (n : Nat) (s : Lizard) (k : Nat), P s → ∃ s', runTicks n s draws k = some s' ∧ P s' := by
  intro n
  induction n with
  | zero => intro s k hp; exact ⟨s, rfl, hp⟩
  | succ n ih =>
    intro s k hp
    cases hgu : episodeGuard s with
    | false =>
      obtain ⟨s', hrun, hp'⟩ := ih (resetPosition s) (k + 1) (hreset s hp)
      exact ⟨s', by simp [runTicks, episodeTick_finish s _ _ hgu, hrun], hp'⟩
    | true =>
      obtain ⟨s1, hs1, -, -, -⟩ := step_total s (hP s hp) (draws k).1 (draws k).2
      obtain ⟨s', hrun, hp'⟩ := ih s1 (k + 1) (hstep s _ _ s1 hp hgu hs1)
      exact ⟨s', by simp [runTicks, episodeTick_step s _ _ hgu, hs1, hrun], hp'⟩

/-- C20 (terminal-state rows stay zero).  For every sequence of draws, after any
number of runs of the callback of `startEpisode` from a fresh `Lizard` (episodes
following one another), and after any number of whole episodes, the run has
returned and rows `4` and `8` of `QTable` are still `[0, 0, 0, 0]`: a step is
executed only from a non-terminal cell and writes only the row of that cell. -/
theorem terminal_rows_stay_zero (draws : Nat → ℚ × ℚ) :
    (∀ n : Nat, ∃ s, runTicks n Lizard.new draws 0 = some s ∧ TerminalRowsZero s ∧
      ∀ j : Int, 0 ≤ j → j ≤ 3 → entry s.QTable 4 j = some 0 ∧ entry s.QTable 8 j = some 0) ∧
    (∀ m fuel : Nat, MAX_STEPS + 1 ≤ fuel →
      ∃ s k, runEpisodes m fuel Lizard.new draws 0 = some (s, k) ∧ TerminalRowsZero s) := by
  have hreset : ∀ s : Lizard, s.WF ∧ TerminalRowsZero s →
      (resetPosition s).WF ∧ TerminalRowsZero (resetPosition s) :=
    fun s h => ⟨resetPosition_wf h.1, h.2⟩
  refine ⟨fun n => ?_, fun m fuel hf => ?_⟩
  · obtain ⟨s, hrun, -, hrows⟩ :=
      runTicks_inv (fun s => s.WF ∧ TerminalRowsZero s) (fun _ h => h.1)
        (fun s r1 r2 s1 hp hg h => guarded_step_rows s r1 r2 s1 hp hg h) hreset draws n
        Lizard.new 0 new_rows
    refine ⟨s, hrun, hrows, fun j hj0 hj3 => ?_⟩
    obtain ⟨h4, h8⟩ := hrows
    interval_cases j <;> (simp only [entry, h4, h8]; simp [getIdx])
  · obtain ⟨s, k, hrun, ⟨-, hrows⟩, -, -, -⟩ :=
      runEpisodes_inv (fun s => s.WF ∧ TerminalRowsZero s) (fun _ h => h.1)
        (fun s r1 r2 s1 hp hg h => guarded_step_rows s r1 r2 s1 hp hg h) hreset draws fuel hf
        m Lizard.new 0 new_rows (by decide)
    exact ⟨s, k, hrun, hrows⟩

/-- Witness of C20: after the `100` episodes of a training run whose every step
draws `0, 0`. -/
theorem terminal_rows_stay_zero_witness :
    ∃ s k, runEpisodes EPISODES 101 Lizard.new (fun _ => (0, 0)) 0 = some (s, k) ∧
      TerminalRowsZero s :=
  (terminal_rows_stay_zero (fun _ => (0, 0))).2 EPISODES 101 (le_refl 101)

/-! ## A playback that never ends -/

theorem loopTable_isTable : IsTable loopTable := by
  simp [IsTable, loopTable, QRow.IsRow4]

theorem loop_bestAction_up (s : Lizard) (ht : s.QTable = loopTable) (hx : s.x = 0)
    (hy : s.y = 2) : bestAction s = some 2 := by
  have hm : mathMax [0, 0, 1, 0] = some 1 := by norm_num [mathMax]
  simp [bestAction, ht, hx, hy, loopTable, getIdx, greedyIdx, hm, indexOf, indexOfFrom]

theorem loop_bestAction_down (s : Lizard) (ht : s.QTable = loopTable) (hx : s.x = 0)
    (hy : s.y = 1) : bestAction s = some 3 := by
  have hm : mathMax [0, 0, 0, 1] = some 1 := by norm_num [mathMax]
  simp [bestAction, ht, hx, hy, loopTable, getIdx, greedyIdx, hm, indexOf, indexOfFrom]

theorem loop_tick_up (s : Lizard) (ht : s.QTable = loopTable) (hx : s.x = 0) (hy : s.y = 2) :
    ∃ s', showResultTick s = Outcome.returned s' ∧ s'.QTable = loopTable ∧ s'.x = 0 ∧
      s'.y = 1 := by
  have hb := loop_bestAction_up s ht hx hy
  have hnt := not_atTerminal_of_x_zero s hx
  have hl : leavesGrid s 2 = false := by simp [leavesGrid, getIdx, ACTION_DELTAS, hx, hy]
  have hrow : getIdx s.QTable (s.y * 3 + s.x) = some (QRow.arr [0, 0, 1, 0]) := by
    simp [ht, hx, hy, loopTable, getIdx]
  have hd : getIdx ACTION_DELTAS 2 = some (0, -1) := by simp [getIdx, ACTION_DELTAS]
  have htab : IsTable s.QTable := by rw [ht]; exact loopTable_isTable
  have hdisp : display { s with x := s.x + 0, y := s.y + -1 } = true :=
    display_of_isTable _ htab
  have hbody : showResultBody s = some (false, { s with x := s.x + 0, y := s.y + -1 }) := by
    simp [showResultBody, hnt, hrow, hb, hl, hd]
  refine ⟨{ s with x := s.x + 0, y := s.y + -1 }, ?_, ht, by simp [hx], by simp [hy]⟩
  simp only [showResultTick, hbody, hdisp]
  rfl

theorem loop_tick_down (s : Lizard) (ht : s.QTable = loopTable) (hx : s.x = 0) (hy : s.y = 1) :
    ∃ s', showResultTick s = Outcome.returned s' ∧ s'.QTable = loopTable ∧ s'.x = 0 ∧
      s'.y = 2 := by
  have hb := loop_bestAction_down s ht hx hy
  have hnt := not_atTerminal_of_x_zero s hx
  have hl : leavesGrid s 3 = false := by simp [leavesGrid, getIdx, ACTION_DELTAS, hx, hy]
  have hrow : getIdx s.QTable (s.y * 3 + s.x) = some (QRow.arr [0, 0, 0, 1]) := by
    simp [ht, hx, hy, loopTable, getIdx]
  have hd : getIdx ACTION_DELTAS 3 = some (0, 1) := by simp [getIdx, ACTION_DELTAS]
  have htab : IsTable s.QTable := by rw [ht]; exact loopTable_isTable
  have hdisp : display { s with x := s.x + 0, y := s.y + 1 } = true :=
    display_of_isTable _ htab
  have hbody : showResultBody s = some (false, { s with x := s.x + 0, y := s.y + 1 }) := by
    simp [showResultBody, hnt, hrow, hb, hl, hd]
  refine ⟨{ s with x := s.x + 0, y := s.y + 1 }, ?_, ht, by simp [hx], by simp [hy]⟩
  simp only [showResultTick, hbody, hdisp]
  rfl

theorem loop_ticks :
    ∀ (n : Nat) (s : Lizard), s.QTable = loopTable → s.x = 0 → (s.y = 2 ∨ s.y = 1) →
      ∃ s', showResultTicks n s = (false, s') ∧ s'.QTable = loopTable ∧ s'.x = 0 ∧
        (s'.y = 2 ∨ s'.y = 1) := by
  intro n
  induction n with
  | zero => intro s ht hx hy; exact ⟨s, rfl, ht, hx, hy⟩
  | succ n ih =>
    intro s ht hx hy
    rcases hy with hy | hy
    · obtain ⟨s1, h1, ht1, hx1, hy1⟩ := loop_tick_up s ht hx hy
      obtain ⟨s', hrun, h⟩ := ih s1 ht1 hx1 (Or.inr hy1)
      exact ⟨s', by simp only [showResultTicks, h1, hrun], h⟩
    · obtain ⟨s1, h1, ht1, hx1, hy1⟩ := loop_tick_down s ht hx hy
      obtain ⟨s', hrun, h⟩ := ih s1 ht1 hx1 (Or.inl hy1)
      exact ⟨s', by simp only [showResultTicks, h1, hrun], h⟩

/-- C18 (greedy playback can run forever).  There is a 9×4 table, with greedy
action `UP` (index `2`) in row `6 = (0, 2)` and `DOWN` (index `3`) in row
`3 = (0, 1)`, such that for every `Lizard` holding it and every `n`, the playback
of `showResult` returns after `n` runs of its callback without having cleared
the interval, at a position that is neither `(1, 1)` nor `(2, 2)`, and the next
run of the callback returns as well, without throwing and without clearing the
interval. -/
theorem playback_can_run_forever :
    ∃ t : List QRow, IsTable t ∧
      greedyIdx [0, 0, 1, 0] = some 2 ∧ getIdx t 6 = some (QRow.arr [0, 0, 1, 0]) ∧
      greedyIdx [0, 0, 0, 1] = some 3 ∧ getIdx t 3 = some (QRow.arr [0, 0, 0, 1]) ∧
      ∀ s : Lizard, s.QTable = t → ∀ n : Nat,
        ∃ s', showResultTicks n (resetPosition s) = (false, s') ∧
          atTerminal s' = false ∧ ¬ (s'.x = 1 ∧ s'.y = 1) ∧ ¬ (s'.x = 2 ∧ s'.y = 2) ∧
          ∃ s2, showResultTick s' = Outcome.returned s2 := by
  refine ⟨loopTable, loopTable_isTable, ?_, by simp [loopTable, getIdx], ?_,
    by simp [loopTable, getIdx], fun s ht n => ?_⟩
  · have hm : mathMax [0, 0, 1, 0] = some 1 := by norm_num [mathMax]
    simp [greedyIdx, hm, indexOf, indexOfFrom]
  · have hm : mathMax [0, 0, 0, 1] = some 1 := by norm_num [mathMax]
    simp [greedyIdx, hm, indexOf, indexOfFrom]
  · obtain ⟨s', hrun, ht', hx, hy⟩ := loop_ticks n (resetPosition s) ht rfl (Or.inl rfl)
    refine ⟨s', hrun, not_atTerminal_of_x_zero s' hx, by omega, by omega, ?_⟩
    rcases hy with hy | hy
    · obtain ⟨s2, h2, -⟩ := loop_tick_up s' ht' hx hy
      exact ⟨s2, h2⟩
    · obtain ⟨s2, h2, -⟩ := loop_tick_down s' ht' hx hy
      exact ⟨s2, h2⟩

/-! ## The position and the table under every operation -/

theorem updateQTable_fields (s s' : Lizard) (p a : Int) (h : updateQTable s p a = some s') :
    s'.x = s.x ∧ s'.y = s.y ∧ s'.QTable.length = s.QTable.length := by
  unfold updateQTable at h
  split at h
  · simp only [Option.bind_eq_some] at h
    obtain ⟨q, -, row, -, m, -, h⟩ := h
    have e := Option.some.inj h
    rw [← e]
    simp [setIdx]
  · exact absurd h (by simp)

theorem updateQTable_not_throws (s s' : Lizard) (p a : Int)
    (h : updateQTable s p a = some s') : updateQTableThrows s p = false := by
  unfold updateQTable at h
  split at h
  · rename_i vs hp
    simp only [Option.bind_eq_some] at h
    obtain ⟨q, -, row, hrow, m, hm, -⟩ := h
    cases row with
    | arr ws => simp [updateQTableThrows, slotIsArr, hp, hrow, QRow.isArr]
    | num v => simp [spreadMax] at hm
    | nan => simp [spreadMax] at hm
  · exact absurd h (by simp)

theorem updateQTable_slots (s s' : Lizard) (p a : Int) (h : updateQTable s p a = some s')
    (hs : SlotsOK s.QTable) : SlotsOK s'.QTable := by
  unfold updateQTable at h
  split at h
  · rename_i vs hp
    simp only [Option.bind_eq_some] at h
    obtain ⟨q, -, row, -, m, -, h⟩ := h
    have e := Option.some.inj h
    rw [← e]
    have h4 : vs.length = 4 := hs.2 _ (mem_of_getIdx hp) rfl
    refine ⟨by simp [setIdx, hs.1], fun r hr hra => ?_⟩
    rcases List.mem_or_eq_of_mem_set hr with h' | h'
    · exact hs.2 r h' hra
    · subst h'
      simp [QRow.IsRow4, setIdx, h4]
  · exact absurd h (by simp)

theorem slotIsArr_get {t : List QRow} {i : Int} (h : slotIsArr t i = true) :
    ∃ vs, getIdx t i = some (QRow.arr vs) := by
  unfold slotIsArr at h
  split at h
  · rename_i r hr
    cases r with
    | arr vs => exact ⟨vs, hr⟩
    | num v => simp [QRow.isArr] at h
    | nan => simp [QRow.isArr] at h
  · simp at h

theorem rewardAndUpdate_state (s1 : Lizard) (p a : Int) (out : Outcome)
    (h : rewardAndUpdate s1 p a = some out) :
    out.state.x = s1.x ∧ out.state.y = s1.y ∧
      out.state.QTable.length = s1.QTable.length ∧
      (SlotsOK s1.QTable → SlotsOK out.state.QTable) := by
  unfold rewardAndUpdate at h
  split at h
  · have e := Option.some.inj h
    rw [← e]; exact ⟨rfl, rfl, rfl, id⟩
  · split at h
    · exact absurd h (by simp)
    · dsimp only at h
      split_ifs at h with ht
      · have e := Option.some.inj h
        rw [← e]; exact ⟨rfl, rfl, rfl, id⟩
      · simp only [Option.map_eq_some'] at h
        obtain ⟨s3, hu, e⟩ := h
        obtain ⟨h1, h2, h3⟩ := updateQTable_fields _ _ _ _ hu
        rw [← e]
        exact ⟨h1, h2, h3, fun hs => updateQTable_slots _ _ _ _ hu hs⟩

theorem rewardAndUpdate_total (s1 : Lizard) (p a : Int) (hg : InGrid s1)
    (hs : SlotsOK s1.QTable) (ha0 : 0 ≤ a) (ha3 : a ≤ 3) :
    ∃ out, rewardAndUpdate s1 p a = some out := by
  obtain ⟨hx0, hx2, hy0, hy2⟩ := hg
  obtain ⟨r, hr⟩ := rewardAt_grid hx0 hx2 hy0 hy2
  simp only [rewardAt, Option.bind_eq_some] at hr
  obtain ⟨row, hrow, hrx⟩ := hr
  apply Option.isSome_iff_exists.mp
  cases ht : updateQTableThrows { s1 with cumulativeReward := s1.cumulativeReward + r } p with
  | true => simp only [rewardAndUpdate, hrow, hrx, ht]; rfl
  | false =>
    have ht2 := ht
    simp only [updateQTableThrows, Bool.not_eq_false', Bool.and_eq_true] at ht2
    obtain ⟨hp, hn⟩ := ht2
    obtain ⟨vs, hvs⟩ := slotIsArr_get hp
    obtain ⟨ws, hws⟩ := slotIsArr_get hn
    have hvs4 : vs.length = 4 := hs.2 _ (mem_of_getIdx hvs) rfl
    have hws4 : ws.length = 4 := hs.2 _ (mem_of_getIdx hws) rfl
    obtain ⟨q, hq⟩ := getIdx_row hvs4 ha0 ha3
    obtain ⟨m, hm⟩ := mathMax_row hws4
    have hu := updateQTable_eq { s1 with cumulativeReward := s1.cumulativeReward + r } p a
      vs ws q m hvs hq hws hm
    simp only [rewardAndUpdate, hrow, hrx, ht, hu]
    rfl

theorem rewardAndUpdate_agree (s1 s3 : Lizard) (p a : Int) (r : ℚ)
    (hr : rewardAt s1.y s1.x = some r)
    (hu : updateQTable { s1 with cumulativeReward := s1.cumulativeReward + r } p a = some s3) :
    rewardAndUpdate s1 p a = some (Outcome.returned s3) := by
  simp only [rewardAt, Option.bind_eq_some] at hr
  obtain ⟨row, hrow, hrx⟩ := hr
  have ht := updateQTable_not_throws _ _ _ _ hu
  simp only [rewardAndUpdate, hrow, hrx, ht, hu]
  rfl

theorem leftOutcome_state (s : Lizard) (out : Outcome) (hg : InGrid s)
    (h : leftOutcome s = some out) :
    InGrid out.state ∧ out.state.QTable.length = s.QTable.length ∧
      (SlotsOK s.QTable → SlotsOK out.state.QTable) := by
  obtain ⟨hx0, hx2, hy0, hy2⟩ := hg
  unfold leftOutcome at h
  split_ifs at h with hx
  · have e := Option.some.inj h
    rw [← e]; exact ⟨⟨hx0, hx2, hy0, hy2⟩, rfl, id⟩
  · obtain ⟨h1, h2, h3, h4⟩ := rewardAndUpdate_state _ _ _ _ h
    simp only at h1 h2 h3 h4
    exact ⟨⟨by omega, by omega, by omega, by omega⟩, h3, h4⟩

theorem rightOutcome_state (s : Lizard) (out : Outcome) (hg : InGrid s)
    (h : rightOutcome s = some out) :
    InGrid out.state ∧ out.state.QTable.length = s.QTable.length ∧
      (SlotsOK s.QTable → SlotsOK out.state.QTable) := by
  obtain ⟨hx0, hx2, hy0, hy2⟩ := hg
  unfold rightOutcome at h
  split_ifs at h with hx
  · have e := Option.some.inj h
    rw [← e]; exact ⟨⟨hx0, hx2, hy0, hy2⟩, rfl, id⟩
  · obtain ⟨h1, h2, h3, h4⟩ := rewardAndUpdate_state _ _ _ _ h
    simp only at h1 h2 h3 h4
    exact ⟨⟨by omega, by omega, by omega, by omega⟩, h3, h4⟩

theorem upOutcome_state (s : Lizard) (out : Outcome) (hg : InGrid s)
    (h : upOutcome s = some out) :
    InGrid out.state ∧ out.state.QTable.length = s.QTable.length ∧
      (SlotsOK s.QTable → SlotsOK out.state.QTable) := by
  obtain ⟨hx0, hx2, hy0, hy2⟩ := hg
  unfold upOutcome at h
  split_ifs at h with hx
  · have e := Option.some.inj h
    rw [← e]; exact ⟨⟨hx0, hx2, hy0, hy2⟩, rfl, id⟩
  · obtain ⟨h1, h2, h3, h4⟩ := rewardAndUpdate_state _ _ _ _ h
    simp only at h1 h2 h3 h4
    exact ⟨⟨by omega, by omega, by omega, by omega⟩, h3, h4⟩

theorem downOutcome_state (s : Lizard) (out : Outcome) (hg : InGrid s)
    (h : downOutcome s = some out) :
    InGrid out.state ∧ out.state.QTable.length = s.QTable.length ∧
      (SlotsOK s.QTable → SlotsOK out.state.QTable) := by
  obtain ⟨hx0, hx2, hy0, hy2⟩ := hg
  unfold downOutcome at h
  split_ifs at h with hx
  · have e := Option.some.inj h
    rw [← e]; exact ⟨⟨hx0, hx2, hy0, hy2⟩, rfl, id⟩
  · obtain ⟨h1, h2, h3, h4⟩ := rewardAndUpdate_state _ _ _ _ h
    simp only at h1 h2 h3 h4
    exact ⟨⟨by omega, by omega, by omega, by omega⟩, h3, h4⟩

theorem dispatchOutcome_state (s : Lizard) (a : Int) (out : Outcome) (hg : InGrid s)
    (h : dispatchOutcome s a = some out) :
    InGrid out.state ∧ out.state.QTable.length = s.QTable.length ∧
      (SlotsOK s.QTable → SlotsOK out.state.QTable) := by
  unfold dispatchOutcome at h
  split_ifs at h
  · exact leftOutcome_state s out hg h
  · exact rightOutcome_state s out hg h
  · exact upOutcome_state s out hg h
  · exact downOutcome_state s out hg h

theorem dispatchOutcome_total (s : Lizard) (a : Int) (hg : InGrid s) (hs : SlotsOK s.QTable) :
    ∃ out, dispatchOutcome s a = some out := by
  obtain ⟨hx0, hx2, hy0, hy2⟩ := hg
  unfold dispatchOutcome leftOutcome rightOutcome upOutcome downOutcome
  split_ifs
  · exact ⟨_, rfl⟩
  · exact rewardAndUpdate_total _ _ _ ⟨by simp only; omega, by simp only; omega, hy0, hy2⟩ hs
      (by decide) (by decide)
  · exact ⟨_, rfl⟩
  · exact rewardAndUpdate_total _ _ _ ⟨by simp only; omega, by simp only; omega, hy0, hy2⟩ hs
      (by decide) (by decide)
  · exact ⟨_, rfl⟩
  · exact rewardAndUpdate_total _ _ _ ⟨hx0, hx2, by simp only; omega, by simp only; omega⟩ hs
      (by decide) (by decide)
  · exact ⟨_, rfl⟩
  · exact rewardAndUpdate_total _ _ _ ⟨hx0, hx2, by simp only; omega, by simp only; omega⟩ hs
      (by decide) (by decide)

theorem finishStep_state (o : Outcome) :
    (finishStep o).state.x = o.state.x ∧ (finishStep o).state.y = o.state.y ∧
      (finishStep o).state.QTable = o.state.QTable := by
  cases o with
  | returned s =>
    simp only [finishStep]
    split_ifs <;> simp [Outcome.state]
  | cleared s => exact ⟨rfl, rfl, rfl⟩
  | threw s => exact ⟨rfl, rfl, rfl⟩

theorem stepOutcome_state (s : Lizard) (r1 r2 : ℚ) (out : Outcome) (hg : InGrid s)
    (h : stepOutcome s r1 r2 = some out) :
    InGrid out.state ∧ out.state.QTable.length = s.QTable.length ∧
      (SlotsOK s.QTable → SlotsOK out.state.QTable) := by
  have key : ∀ a, (dispatchOutcome s a).map finishStep = some out →
      InGrid out.state ∧ out.state.QTable.length = s.QTable.length ∧
        (SlotsOK s.QTable → SlotsOK out.state.QTable) := by
    intro a ha
    simp only [Option.map_eq_some'] at ha
    obtain ⟨o, ho, e⟩ := ha
    obtain ⟨⟨a1, a2, a3, a4⟩, g2, g3⟩ := dispatchOutcome_state s a o hg ho
    obtain ⟨f1, f2, f3⟩ := finishStep_state o
    rw [← e]
    exact ⟨⟨by rw [f1]; exact a1, by rw [f1]; exact a2, by rw [f2]; exact a3,
      by rw [f2]; exact a4⟩, by rw [f3]; exact g2, by rw [f3]; exact g3⟩
  unfold stepOutcome at h
  split_ifs at h with he
  · exact key _ h
  · split at h
    · simp only [Option.bind_eq_some] at h
      obtain ⟨a, -, ha⟩ := h
      exact key a ha
    · have e := Option.some.inj h
      rw [← e]; exact ⟨hg, rfl, id⟩

theorem stepOutcome_total (s : Lizard) (r1 r2 : ℚ) (hg : InGrid s) (hs : SlotsOK s.QTable) :
    ∃ out, stepOutcome s r1 r2 = some out := by
  apply Option.isSome_iff_exists.mp
  unfold stepOutcome
  split_ifs with he
  · obtain ⟨o, ho⟩ := dispatchOutcome_total s ⌊r2 * 4⌋ hg hs
    simp [ho]
  · split
    · rename_i vs hvs
      have h4 : vs.length = 4 := hs.2 _ (mem_of_getIdx hvs) rfl
      obtain ⟨m, hm⟩ := mathMax_row h4
      obtain ⟨o, ho⟩ := dispatchOutcome_total s (indexOf vs m) hg hs
      simp [greedyIdx, hm, ho]
    · rfl

theorem minusHundred_not_arr (r : QRow) : (minusHundred r).isArr = false := by
  cases r with
  | arr vs => rcases vs with _ | ⟨v, _ | ⟨w, ws⟩⟩ <;> rfl
  | num v => rfl
  | nan => rfl

theorem showResultBody_state (s s' : Lizard) (b : Bool) (hg : InGrid s)
    (h : showResultBody s = some (b, s')) :
    InGrid s' ∧ s'.QTable.length = s.QTable.length ∧
      (SlotsOK s.QTable → SlotsOK s'.QTable) := by
  unfold showResultBody at h
  split_ifs at h with ht
  · have e := (Prod.mk.inj (Option.some.inj h)).2
    rw [← e]; exact ⟨hg, rfl, id⟩
  · simp only [Option.bind_eq_some] at h
    obtain ⟨row, -, a, -, action, hd, h⟩ := h
    split_ifs at h with hl
    · have e := (Prod.mk.inj (Option.some.inj h)).2
      rw [← e]
      refine ⟨hg, by simp [setIdx], fun hs => ⟨by simp [setIdx, hs.1], fun r hr hra => ?_⟩⟩
      rcases List.mem_or_eq_of_mem_set hr with h' | h'
      · exact hs.2 r h' hra
      · rw [h', minusHundred_not_arr] at hra
        exact absurd hra (by simp)
    · have e := (Prod.mk.inj (Option.some.inj h)).2
      rw [← e]
      have hl' : leavesGrid s a = false := by simpa using hl
      simp only [leavesGrid, hd, decide_eq_false_iff_not] at hl'
      refine ⟨?_, rfl, id⟩
      simp only [InGrid]
      omega

theorem showResultTick_state (s : Lizard) (hg : InGrid s) :
    InGrid (showResultTick s).state ∧ (showResultTick s).state.QTable.length = s.QTable.length ∧
      (SlotsOK s.QTable → SlotsOK (showResultTick s).state.QTable) := by
  unfold showResultTick
  split
  · exact ⟨hg, rfl, id⟩
  · rename_i s1 hb
    exact showResultBody_state s s1 true hg hb
  · rename_i s1 hb
    have hst := showResultBody_state s s1 false hg hb
    split_ifs <;> exact hst

theorem resetPositionOutcome_state (s : Lizard) :
    InGrid (resetPositionOutcome s).state ∧ (resetPositionOutcome s).state.QTable = s.QTable := by
  unfold resetPositionOutcome
  split_ifs <;> simp [Outcome.state, resetPosition, InGrid]

theorem opOutcome_state (s : Lizard) (o : Op) (out : Outcome) (hg : InGrid s)
    (h : opOutcome s o = some out) :
    InGrid out.state ∧ out.state.QTable.length = s.QTable.length ∧
      (SlotsOK s.QTable → SlotsOK out.state.QTable) := by
  cases o with
  | left => exact leftOutcome_state s out hg h
  | right => exact rightOutcome_state s out hg h
  | up => exact upOutcome_state s out hg h
  | down => exact downOutcome_state s out hg h
  | step r1 r2 => exact stepOutcome_state s r1 r2 out hg h
  | resetPosition =>
    have e : resetPositionOutcome s = out := Option.some.inj h
    obtain ⟨h1, h2⟩ := resetPositionOutcome_state s
    rw [← e]
    exact ⟨h1, by rw [h2], by rw [h2]; exact id⟩
  | showResultTick =>
    have e : showResultTick s = out := Option.some.inj h
    rw [← e]
    exact showResultTick_state s hg

theorem opOutcome_total (s : Lizard) (o : Op) (hg : InGrid s) (hs : SlotsOK s.QTable) :
    ∃ out, opOutcome s o = some out := by
  cases o with
  | left =>
    obtain ⟨out, h⟩ := dispatchOutcome_total s 0 hg hs
    exact ⟨out, by simpa [dispatchOutcome] using h⟩
  | right =>
    obtain ⟨out, h⟩ := dispatchOutcome_total s 1 hg hs
    exact ⟨out, by simpa [dispatchOutcome] using h⟩
  | up =>
    obtain ⟨out, h⟩ := dispatchOutcome_total s 2 hg hs
    exact ⟨out, by simpa [dispatchOutcome] using h⟩
  | down =>
    obtain ⟨out, h⟩ := dispatchOutcome_total s 3 hg hs
    exact ⟨out, by simpa [dispatchOutcome] using h⟩
  | step r1 r2 => exact stepOutcome_total s r1 r2 hg hs
  | resetPosition => exact ⟨_, rfl⟩
  | showResultTick => exact ⟨_, rfl⟩

theorem afterOps_total :
    ∀ (os : List Op) (s : Lizard), InGrid s → SlotsOK s.QTable →
      ∃ s', afterOps s os = some s' ∧ InGrid s' ∧ SlotsOK s'.QTable := by
  intro os
  induction os with
  | nil => intro s hg hs; exact ⟨s, rfl, hg, hs⟩
  | cons o os ih =>
    intro s hg hs
    obtain ⟨out, ho⟩ := opOutcome_total s o hg hs
    obtain ⟨hg1, -, hs1⟩ := opOutcome_state s o out hg ho
    obtain ⟨s', h, hg2, hs2⟩ := ih out.state hg1 (hs1 hs)
    exact ⟨s', by simp only [afterOps, ho, Option.some_bind, h], hg2, hs2⟩

theorem slotsOK_of_isTable {t : List QRow} (h : IsTable t) : SlotsOK t :=
  ⟨h.1, fun r hr _ => h.2 r hr⟩

theorem runOp_outcome (s s' : Lizard) (o : Op) (h : runOp s o = some s') :
    ∃ out, opOutcome s o = some out ∧ out.state = s' := by
  unfold runOp at h
  split at h
  · rename_i s1 ho
    exact ⟨_, ho, Option.some.inj h⟩
  · rename_i s1 ho
    exact ⟨_, ho, Option.some.inj h⟩
  · exact absurd h (by simp)

theorem runOps_afterOps :
    ∀ (os : List Op) (s s' : Lizard), runOps s os = some s' → afterOps s os = some s' := by
  intro os
  induction os with
  | nil => intro s s' h; exact h
  | cons o os ih =>
    intro s s' h
    simp only [runOps, Option.bind_eq_some] at h
    obtain ⟨s1, h1, h2⟩ := h
    obtain ⟨out, ho, e⟩ := runOp_outcome s s1 o h1
    simp only [afterOps, ho, Option.some_bind, e]
    exact ih s1 s' h2

/-! ## Calls in well-formed states return -/

theorem left_agree (s s' : Lizard) (res : MoveResult) (h : left s = some (res, s')) :
    leftOutcome s = some (Outcome.returned s') := by
  unfold left at h
  unfold leftOutcome
  split_ifs at h ⊢ with hx
  · have e := (Prod.mk.inj (Option.some.inj h)).2
    rw [e]
  · simp only [Option.bind_eq_some, Option.map_eq_some'] at h
    obtain ⟨r, hr, s3, hu, e⟩ := h
    have e2 := (Prod.mk.inj e).2
    rw [← e2]
    exact rewardAndUpdate_agree _ _ _ _ r hr hu

theorem right_agree (s s' : Lizard) (res : MoveResult) (h : right s = some (res, s')) :
    rightOutcome s = some (Outcome.returned s') := by
  unfold right at h
  unfold rightOutcome
  split_ifs at h ⊢ with hx
  · have e := (Prod.mk.inj (Option.some.inj h)).2
    rw [e]
  · simp only [Option.bind_eq_some, Option.map_eq_some'] at h
    obtain ⟨r, hr, s3, hu, e⟩ := h
    have e2 := (Prod.mk.inj e).2
    rw [← e2]
    exact rewardAndUpdate_agree _ _ _ _ r hr hu

theorem up_agree (s s' : Lizard) (res : MoveResult) (h : up s = some (res, s')) :
    upOutcome s = some (Outcome.returned s') := by
  unfold up at h
  unfold upOutcome
  split_ifs at h ⊢ with hx
  · have e := (Prod.mk.inj (Option.some.inj h)).2
    rw [e]
  · simp only [Option.bind_eq_some, Option.map_eq_some'] at h
    obtain ⟨r, hr, s3, hu, e⟩ := h
    have e2 := (Prod.mk.inj e).2
    rw [← e2]
    exact rewardAndUpdate_agree _ _ _ _ r hr hu

theorem down_agree (s s' : Lizard) (res : MoveResult) (h : down s = some (res, s')) :
    downOutcome s = some (Outcome.returned s') := by
  unfold down at h
  unfold downOutcome
  split_ifs at h ⊢ with hx
  · have e := (Prod.mk.inj (Option.some.inj h)).2
    rw [e]
  · simp only [Option.bind_eq_some, Option.map_eq_some'] at h
    obtain ⟨r, hr, s3, hu, e⟩ := h
    have e2 := (Prod.mk.inj e).2
    rw [← e2]
    exact rewardAndUpdate_agree _ _ _ _ r hr hu

theorem dispatch_agree (s s' : Lizard) (a : Int) (res : MoveResult)
    (h : dispatch s a = some (res, s')) :
    dispatchOutcome s a = some (Outcome.returned s') := by
  unfold dispatch at h
  unfold dispatchOutcome
  split_ifs at h ⊢
  · exact left_agree s s' res h
  · exact right_agree s s' res h
  · exact up_agree s s' res h
  · exact down_agree s s' res h

theorem step_agree (s s' : Lizard) (r1 r2 : ℚ) (h : step s r1 r2 = some s')
    (hd : display s' = true) : stepOutcome s r1 r2 = some (Outcome.returned s') := by
  unfold step at h
  simp only [Option.bind_eq_some, Option.map_eq_some'] at h
  obtain ⟨a, hc, res, hdis, e⟩ := h
  have hdo := dispatch_agree s res.2 a res.1 hdis
  have hfin : finishStep (Outcome.returned res.2) = Outcome.returned s' := by
    simp only [finishStep, e, hd]
    rfl
  unfold chooseAction at hc
  unfold stepOutcome
  by_cases he : r1 ≤ s.explorationRate
  · simp only [he, decide_True, if_true] at hc ⊢
    have ea : ⌊r2 * 4⌋ = a := Option.some.inj hc
    rw [ea, hdo, Option.map_some', hfin]
  · simp only [he, decide_False, Bool.false_eq_true, if_false] at hc ⊢
    unfold bestAction at hc
    dsimp only at hc
    cases hrow : getIdx s.QTable (s.y * 3 + s.x) with
    | none => rw [hrow] at hc; exact absurd hc (by simp)
    | some row =>
      rw [hrow] at hc
      cases row with
      | arr vs =>
        dsimp only at hc
        simp only [hc, Option.some_bind, hdo, Option.map_some', hfin]
      | num v => exact absurd hc (by simp)
      | nan => exact absurd hc (by simp)

theorem opOutcome_wf (s : Lizard) (hs : s.WF) (o : Op) (ho : o ≠ Op.showResultTick) :
    ∃ s', opOutcome s o = some (Outcome.returned s') ∧ s'.WF := by
  cases o with
  | left =>
    obtain ⟨res, s', hd, hwf, -, -⟩ := dispatch_total s hs 0
    have h := dispatch_agree s s' 0 res hd
    exact ⟨s', by simpa [dispatchOutcome] using h, hwf⟩
  | right =>
    obtain ⟨res, s', hd, hwf, -, -⟩ := dispatch_total s hs 1
    have h := dispatch_agree s s' 1 res hd
    exact ⟨s', by simpa [dispatchOutcome] using h, hwf⟩
  | up =>
    obtain ⟨res, s', hd, hwf, -, -⟩ := dispatch_total s hs 2
    have h := dispatch_agree s s' 2 res hd
    exact ⟨s', by simpa [dispatchOutcome] using h, hwf⟩
  | down =>
    obtain ⟨res, s', hd, hwf, -, -⟩ := dispatch_total s hs 3
    have h := dispatch_agree s s' 3 res hd
    exact ⟨s', by simpa [dispatchOutcome] using h, hwf⟩
  | step r1 r2 =>
    obtain ⟨s', h1, h2, -, -⟩ := step_total s hs r1 r2
    exact ⟨s', step_agree s s' r1 r2 h1 (display_of_isTable s' h2.table), h2⟩
  | resetPosition =>
    have hwf := resetPosition_wf hs
    have hd := display_of_isTable (resetPosition s) hwf.table
    exact ⟨resetPosition s, by simp only [opOutcome, resetPositionOutcome, hd]; rfl, hwf⟩
  | showResultTick => exact absurd rfl ho

theorem runOp_wf (s : Lizard) (hs : s.WF) (o : Op) (ho : o ≠ Op.showResultTick) :
    ∃ s', runOp s o = some s' ∧ s'.WF := by
  obtain ⟨s', h, hwf⟩ := opOutcome_wf s hs o ho
  exact ⟨s', by simp only [runOp, h], hwf⟩

theorem runOps_wf :
    ∀ (os : List Op) (s : Lizard), s.WF → Op.showResultTick ∉ os →
      ∃ s', runOps s os = some s' ∧ s'.WF := by
  intro os
  induction os with
  | nil => intro s hs _; exact ⟨s, rfl, hs⟩
  | cons o os ih =>
    intro s hs hno
    have ho : o ≠ Op.showResultTick := fun h => hno (by simp [h])
    obtain ⟨s1, h1, hwf1⟩ := runOp_wf s hs o ho
    obtain ⟨s', h2, hwf2⟩ := ih s1 hwf1 (fun h => hno (List.mem_cons_of_mem _ h))
    exact ⟨s', by simp [runOps, h1, h2], hwf2⟩

/-- C14 (Q-table shape invariant), as the code behaves.  From a fresh `Lizard`,
every sequence of the four moves, `step` and `resetPosition` returns and leaves
`QTable` with exactly 9 rows of 4 numbers.  A playback iteration breaks the
shape: after `resetPosition` and one run of the callback of `showResult` the
table still has 9 slots, but slot `6` holds `NaN` instead of a row of 4 numbers;
the callback has stored it and then thrown a `TypeError` in `display`. -/
theorem table_shape_broken_by_playback :
    (∀ os : List Op, Op.showResultTick ∉ os →
      ∃ s, runOps Lizard.new os = some s ∧ IsTable s.QTable) ∧
    ∃ s', afterOps Lizard.new [Op.resetPosition, Op.showResultTick] = some s' ∧
      opOutcome Lizard.new Op.resetPosition =
        some (Outcome.returned (resetPosition Lizard.new)) ∧
      opOutcome (resetPosition Lizard.new) Op.showResultTick = some (Outcome.threw s') ∧
      s'.QTable.length = 9 ∧ getIdx s'.QTable 6 = some QRow.nan ∧ ¬ IsTable s'.QTable := by
  constructor
  · intro os hno
    obtain ⟨s, h, hwf⟩ := runOps_wf os Lizard.new new_wf hno
    exact ⟨s, h, hwf.table⟩
  · have hbest : bestAction (resetPosition Lizard.new) = some 0 :=
      zeroTable_bestAction _ rfl rfl rfl
    have hwf : (resetPosition Lizard.new).WF := resetPosition_wf new_wf
    have htick := showResultTick_blocked _ hwf (by decide) 0 hbest (by decide)
    have hreset : opOutcome Lizard.new Op.resetPosition =
        some (Outcome.returned (resetPosition Lizard.new)) := by
      have hd := display_of_isTable (resetPosition Lizard.new) hwf.table
      simp only [opOutcome, resetPositionOutcome, hd]
      rfl
    have hplay : opOutcome (resetPosition Lizard.new) Op.showResultTick =
        some (Outcome.threw { resetPosition Lizard.new with
          QTable := setIdx (resetPosition Lizard.new).QTable
            ((resetPosition Lizard.new).y * 3 + (resetPosition Lizard.new).x) QRow.nan }) := by
      simp only [opOutcome, htick]
    have hrun : afterOps Lizard.new [Op.resetPosition, Op.showResultTick] =
        some { resetPosition Lizard.new with
          QTable := setIdx (resetPosition Lizard.new).QTable
            ((resetPosition Lizard.new).y * 3 + (resetPosition Lizard.new).x) QRow.nan } := by
      simp only [afterOps, hreset, Option.some_bind, Outcome.state, hplay]
    refine ⟨_, hrun, hreset, hplay, ?_, ?_, ?_⟩
    · simp [resetPosition, Lizard.new, setIdx]
    · simp [resetPosition, Lizard.new, setIdx, getIdx]
    · intro h
      have hmem : QRow.nan ∈ setIdx (resetPosition Lizard.new).QTable
          ((resetPosition Lizard.new).y * 3 + (resetPosition Lizard.new).x) QRow.nan := by
        simp [resetPosition, Lizard.new, setIdx]
      exact h.2 QRow.nan hmem

/-- C15 (position invariant).  From a position on the grid, each of `left`,
`right`, `up`, `down`, `step`, `resetPosition` and one playback iteration leaves a
position on the grid, whether the call returns or throws a `TypeError`.  In a
state whose table has nine slots, each a row of four numbers or no array, every
such call ends in such a state; in a well-formed state each call but the
playback returns, in a well-formed state.  So after every sequence of these
operations from a fresh `Lizard`, each run in the state the one before has left
behind, the position is on the grid, the state index `y * 3 + x` lies in `0..8`,
and the lookups `QTable[y * 3 + x]` and `REWARDS[y][x]` are in range. -/
theorem position_invariant (s : Lizard) (h : InGrid s) :
    (∀ (o : Op) (out : Outcome), opOutcome s o = some out → InGrid out.state) ∧
    (∀ (o : Op) (s' : Lizard), runOp s o = some s' → InGrid s') ∧
    (SlotsOK s.QTable → ∀ o : Op, ∃ out, opOutcome s o = some out ∧ InGrid out.state ∧
      SlotsOK out.state.QTable) ∧
    (s.WF → ∀ o : Op, o ≠ Op.showResultTick →
      ∃ s', opOutcome s o = some (Outcome.returned s') ∧ runOp s o = some s' ∧
        InGrid s' ∧ s'.WF) ∧
    (∀ os : List Op, ∃ s', afterOps Lizard.new os = some s' ∧
      InGrid s' ∧ 0 ≤ s'.y * 3 + s'.x ∧ s'.y * 3 + s'.x ≤ 8 ∧
      (getIdx s'.QTable (s'.y * 3 + s'.x)).isSome = true ∧
      (rewardAt s'.y s'.x).isSome = true) ∧
    (∀ (os : List Op) (s' : Lizard), runOps Lizard.new os = some s' →
      InGrid s' ∧ 0 ≤ s'.y * 3 + s'.x ∧ s'.y * 3 + s'.x ≤ 8 ∧
      (getIdx s'.QTable (s'.y * 3 + s'.x)).isSome = true ∧
      (rewardAt s'.y s'.x).isSome = true) := by
  have hnew : InGrid Lizard.new := ⟨by decide, by decide, by decide, by decide⟩
  have hseq : ∀ os : List Op, ∃ s', afterOps Lizard.new os = some s' ∧
      InGrid s' ∧ 0 ≤ s'.y * 3 + s'.x ∧ s'.y * 3 + s'.x ≤ 8 ∧
      (getIdx s'.QTable (s'.y * 3 + s'.x)).isSome = true ∧
      (rewardAt s'.y s'.x).isSome = true := by
    intro os
    obtain ⟨s', hrun, hg, hs'⟩ := afterOps_total os Lizard.new hnew
      (slotsOK_of_isTable new_wf.table)
    have hlen9 := hs'.1
    obtain ⟨hx0, hx2, hy0, hy2⟩ := hg
    obtain ⟨r, hr⟩ := rewardAt_grid hx0 hx2 hy0 hy2
    refine ⟨s', hrun, ⟨hx0, hx2, hy0, hy2⟩, by omega, by omega, ?_, by simp [hr]⟩
    rw [getIdx_of_lt s'.QTable _ (by omega) (by omega)]
    rfl
  refine ⟨fun o out ho => (opOutcome_state s o out h ho).1, fun o s' ho => ?_, fun hs o => ?_,
    fun hs o ho => ?_, hseq, fun os s' hrun => ?_⟩
  · obtain ⟨out, h1, e⟩ := runOp_outcome s s' o ho
    rw [← e]
    exact (opOutcome_state s o out h h1).1
  · obtain ⟨out, h1⟩ := opOutcome_total s o h hs
    obtain ⟨g1, -, g3⟩ := opOutcome_state s o out h h1
    exact ⟨out, h1, g1, g3 hs⟩
  · obtain ⟨s', h1, hwf⟩ := opOutcome_wf s hs o ho
    exact ⟨s', h1, by simp only [runOp, h1], ⟨hwf.x_lo, hwf.x_hi, hwf.y_lo, hwf.y_hi⟩, hwf⟩
  · obtain ⟨s2, h2, rest⟩ := hseq os
    have e : s2 = s' := Option.some.inj ((h2.symm).trans (runOps_afterOps os _ s' hrun))
    rw [← e]
    exact rest

/-- Witness of C15: on a fresh `Lizard`, the playback iteration, which throws,
and a sequence of operations that goes on after it. -/
theorem position_invariant_witness :
    InGrid Lizard.new ∧
    InGrid (showResultTick Lizard.new).state ∧
    (∃ s', opOutcome Lizard.new (Op.step 0 (1 / 2)) = some (Outcome.returned s') ∧
      runOp Lizard.new (Op.step 0 (1 / 2)) = some s' ∧ InGrid s' ∧ s'.WF) ∧
    (∃ s', afterOps Lizard.new [Op.showResultTick, Op.step 1 0, Op.up] = some s' ∧
      InGrid s' ∧ 0 ≤ s'.y * 3 + s'.x ∧ s'.y * 3 + s'.x ≤ 8 ∧
      (getIdx s'.QTable (s'.y * 3 + s'.x)).isSome = true ∧
      (rewardAt s'.y s'.x).isSome = true) :=
  ⟨⟨by decide, by decide, by decide, by decide⟩,
   (position_invariant Lizard.new ⟨by decide, by decide, by decide, by decide⟩).1
      Op.showResultTick (showResultTick Lizard.new) rfl,
   (position_invariant Lizard.new ⟨by decide, by decide, by decide, by decide⟩).2.2.2.1 new_wf
      (Op.step 0 (1 / 2)) (by simp),
   (position_invariant Lizard.new ⟨by decide, by decide, by decide, by decide⟩).2.2.2.2.1
      [Op.showResultTick, Op.step 1 0, Op.up]⟩

end LizardGame
